import Mathlib

/-!
Verification of the simple-social-network repository (modules/userprofile.py and
modules/socialnetwork.py) against its natural-language specification.

The Python classes are shallowly embedded:

* `UserProfile` mirrors the Python class of the same name: three string fields
  plus the optional integer id assigned by the network.  Python `__eq__` and
  `__hash__` compare only `(name, email, phone)`; this data equality is the
  Boolean `eqData` below.
* `Network` mirrors the private state of class `SocialNetwork`:
  `_profiles` and `_friendships` are option-valued maps,
  `_name_index` is an option-valued map from names to id sets, `_profile_set` is the
  duplicate-detection hash set, modelled as a list whose membership, add and
  discard operations use `eqData` exactly as a Python hash set keyed by
  `__hash__`/`__eq__` does, and `_next_id` is the id counter.
  Python `set` objects are modelled as duplicate-free lists: `insertNat` is
  `set.add`, `removeNat` is `set.discard`/`set.remove`.
  The auxiliary `LinkedDirectedGraph` mirror (`self._graph`) is excluded: its
  module is not part of the analysed sources and the specification classifies
  it as a write-only sink never read back by the core.
* Each public method becomes a function `Network → args → Network × result`;
  the result datatype records which of the method's early-return branches was
  taken (the Python code reports these branches by printing a message).
  Where Python indexes a dict (`self._friendships[id1]`) and would raise
  `KeyError` on a missing key, the model totalises the lookup with `getD`;
  the reachability invariants proved below show those keys are always present
  at every call site generated by the public API, so the default is inert.
* The public API surface is the `Op` type: the five mutating operations as the
  repository's callers (`main.py`, the unit tests) invoke them — profiles for
  the friendship calls are fetched from the id→profile map by id.
-/

namespace SocialNetwork

/-- Python class `UserProfile`: three data fields and the id assigned by the
network (`user_id`, `None` until `add_profile` assigns it). -/
structure UserProfile where
  name : String
  email : String
  phone : String
  userId : Option Nat
deriving DecidableEq, Repr

/-- Python `UserProfile.__eq__` (and the equivalence underlying `__hash__`):
two profiles are data-equal iff name, email and phone all coincide; the id is
ignored. -/
def eqData (p q : UserProfile) : Bool :=
  p.name == q.name && p.email == q.email && p.phone == q.phone

/-- Python `UserProfile.update`: each field is overwritten exactly when the
argument is not `None` and not the empty string. -/
def applyUpdate (p : UserProfile) (nn ne np : Option String) : UserProfile :=
  { p with
    name := match nn with
      | some s => if s ≠ "" then s else p.name
      | none => p.name
    email := match ne with
      | some s => if s ≠ "" then s else p.email
      | none => p.email
    phone := match np with
      | some s => if s ≠ "" then s else p.phone
      | none => p.phone }

/-- Pointwise update of an option-valued map (a Python dict assignment `m[k] = v`
for `some v`, deletion `m.pop(k)` for `none`). -/
def upd [DecidableEq α] (f : α → Option β) (a : α) (b : Option β) :
    α → Option β :=
  fun x => if x = a then b else f x

/-- Python `set.add` on an int set. -/
def insertNat (x : Nat) (l : List Nat) : List Nat :=
  if x ∈ l then l else x :: l

/-- Python `set.discard` / `set.remove` on an int set (the model's lists are
duplicate-free, so filtering removes exactly the one stored copy). -/
def removeNat (x : Nat) (l : List Nat) : List Nat :=
  l.filter (fun y => decide (y ≠ x))

/-- Membership of a profile in the hash-based `_profile_set`
(`target in self._profile_set`): Python hash-set membership keyed by
`__hash__`/`__eq__`, i.e. by data equality. -/
def inSet (s : List UserProfile) (p : UserProfile) : Bool :=
  s.any (fun q => eqData p q)

/-- Python `set.add` on `_profile_set`: a no-op when a data-equal member is
already present. -/
def setAdd (s : List UserProfile) (p : UserProfile) : List UserProfile :=
  if inSet s p then s else p :: s

/-- Python `set.discard` on `_profile_set`: removes the (unique, since a hash
set never holds two equal members) data-equal member if present. -/
def setDiscard (s : List UserProfile) (p : UserProfile) : List UserProfile :=
  s.filter (fun q => !(eqData q p))

/-- The private state of Python class `SocialNetwork` (minus the write-only
graph mirror): `_profiles`, `_name_index`, `_profile_set`, `_friendships`,
`_next_id`. -/
structure Network where
  profiles : Nat → Option UserProfile
  nameIndex : String → Option (List Nat)
  profileSet : List UserProfile
  friendships : Nat → Option (List Nat)
  nextId : Nat

/-- Python `SocialNetwork.__init__`: all maps empty, `_next_id = 1`. -/
def Network.empty : Network :=
  { profiles := fun _ => none
    nameIndex := fun _ => none
    profileSet := []
    friendships := fun _ => none
    nextId := 1 }

/-- Python `SocialNetwork.add_profile`.  Returns the updated network and the id of
the created profile, or `none` when the duplicate check fails (Python prints
and returns `None`). -/
def add_profile (net : Network) (nm em ph : String) : Network × Option Nat :=
  let cand : UserProfile := ⟨nm, em, ph, none⟩
  if inSet net.profileSet cand then (net, none)
  else
    let uid := net.nextId
    let newP : UserProfile := ⟨nm, em, ph, some uid⟩
    ({ profiles := upd net.profiles uid (some newP)
       nameIndex :=
         upd net.nameIndex nm (some (insertNat uid ((net.nameIndex nm).getD [])))
       profileSet := newP :: net.profileSet
       friendships := upd net.friendships uid (some [])
       nextId := uid + 1 }, some uid)

/-- The early-return branches of the two friendship methods, in source order;
the Python code distinguishes them by the message it prints. -/
inductive FriendshipResult where
  | unknownProfile
  | selfFriendship
  | missingId
  | alreadyFriends
  | notFriends
  | ok
deriving DecidableEq, Repr

/-- The adjacency map after the mutation step of `add_friendship`:
`self._friendships[id1].add(id2)` followed by
`self._friendships[id2].add(id1)`. -/
def addEdges (net : Network) (id1 id2 : Nat) : Nat → Option (List Nat) :=
  upd (upd net.friendships id1
      (some (insertNat id2 ((net.friendships id1).getD []))))
    id2
    (some (insertNat id1
      ((upd net.friendships id1
          (some (insertNat id2 ((net.friendships id1).getD []))) id2).getD [])))

/-- Python `SocialNetwork.add_friendship`.  Validation order as in the source:
data-membership of both arguments in `_profile_set`, data equality of the two
arguments, presence of ids, then the already-friends check on the adjacency
map; only then are the two directed entries inserted. -/
def add_friendship (net : Network) (p1 p2 : UserProfile) :
    Network × FriendshipResult :=
  if ¬ (inSet net.profileSet p1 ∧ inSet net.profileSet p2) then
    (net, .unknownProfile)
  else if eqData p1 p2 then (net, .selfFriendship)
  else
    match p1.userId, p2.userId with
    | some id1, some id2 =>
      if id2 ∈ (net.friendships id1).getD [] then (net, .alreadyFriends)
      else ({ net with friendships := addEdges net id1 id2 }, .ok)
    | _, _ => (net, .missingId)

/-- The two early-return branches of `update_profile` / `remove_profile`. -/
inductive UpdateResult where
  | profileNotFound
  | ok
deriving DecidableEq, Repr

/-- Dropping an id from a name's index entry, popping the entry when the
remaining set is empty (`old_ids.discard(user_id)` followed by the conditional
`pop`); performed by the rename path of `update_profile` and by
`remove_profile`. -/
def dropFromNameIndex (net : Network) (uid : Nat) (oldName : String) :
    String → Option (List Nat) :=
  if (removeNat uid ((net.nameIndex oldName).getD [])).isEmpty then
    upd net.nameIndex oldName none
  else
    upd net.nameIndex oldName (some (removeNat uid ((net.nameIndex oldName).getD [])))

/-- The name-index transformation of `update_profile` when the name really
changes: drop the id from the old name's entry (popping the entry when the
remaining set is empty), then add the id under the new name. -/
def renameIndex (net : Network) (uid : Nat) (oldName s : String) :
    String → Option (List Nat) :=
  upd (dropFromNameIndex net uid oldName) s
    (some (insertNat uid ((dropFromNameIndex net uid oldName s).getD [])))

/-- Python `SocialNetwork.update_profile`: discard the old representation from the
hash set, move the id between name-index entries when the name actually
changes (`if new_name and new_name != old_name`), apply `UserProfile.update`
to the stored profile, re-insert into the hash set. -/
def update_profile (net : Network) (uid : Nat) (nn ne np : Option String) :
    Network × UpdateResult :=
  match net.profiles uid with
  | none => (net, .profileNotFound)
  | some profile =>
    let idx1 :=
      match nn with
      | none => net.nameIndex
      | some s =>
        if s ≠ "" ∧ s ≠ profile.name then renameIndex net uid profile.name s
        else net.nameIndex
    let p2 := applyUpdate profile nn ne np
    ({ profiles := upd net.profiles uid (some p2)
       nameIndex := idx1
       profileSet := setAdd (setDiscard net.profileSet profile) p2
       friendships := net.friendships
       nextId := net.nextId }, .ok)

/-- The adjacency map after `remove_profile(uid)`: the id is dropped from the
set of every neighbour (`self._friendships[friend_id].discard(user_id)` for
each stored neighbour), then the id's own entry is popped. -/
def severFriendships (net : Network) (uid : Nat) : Nat → Option (List Nat) :=
  upd (fun j =>
    if j ∈ (net.friendships uid).getD [] then
      (net.friendships j).map (removeNat uid)
    else net.friendships j) uid none

/-- Python `SocialNetwork.remove_profile`: discard from the hash set, strip the id
from every neighbour's adjacency set, drop its own adjacency entry, its
profile entry and its name-index membership (pruning an emptied entry). -/
def remove_profile (net : Network) (uid : Nat) : Network × UpdateResult :=
  match net.profiles uid with
  | none => (net, .profileNotFound)
  | some profile =>
    ({ profiles := upd net.profiles uid none
       nameIndex := dropFromNameIndex net uid profile.name
       profileSet := setDiscard net.profileSet profile
       friendships := severFriendships net uid
       nextId := net.nextId }, .ok)

/-- The adjacency map after the mutation step of `remove_friendship`:
`self._friendships[id1].remove(id2)` followed by
`self._friendships[id2].remove(id1)`. -/
def removeEdges (net : Network) (id1 id2 : Nat) : Nat → Option (List Nat) :=
  upd (upd net.friendships id1
      (some (removeNat id2 ((net.friendships id1).getD []))))
    id2
    (some (removeNat id1
      ((upd net.friendships id1
          (some (removeNat id2 ((net.friendships id1).getD []))) id2).getD [])))

/-- Python `SocialNetwork.remove_friendship`.  Validation order as in the source:
presence of ids, id-membership in `_profiles`, then the not-friends check;
only then are the two directed entries removed. -/
def remove_friendship (net : Network) (p1 p2 : UserProfile) :
    Network × FriendshipResult :=
  match p1.userId, p2.userId with
  | some id1, some id2 =>
    if ¬ (net.profiles id1 ≠ none ∧ net.profiles id2 ≠ none) then
      (net, .unknownProfile)
    else if id2 ∉ (net.friendships id1).getD [] then (net, .notFriends)
    else ({ net with friendships := removeEdges net id1 id2 }, .ok)
  | _, _ => (net, .missingId)

/-- Insert into a list sorted by the Boolean comparator `le` (model of the
stable sort performed by Python `sorted`). -/
def insertSorted (le : α → α → Bool) (a : α) : List α → List α
  | [] => [a]
  | b :: l => if le a b then a :: b :: l else b :: insertSorted le a l

/-- Stable insertion sort by the Boolean comparator `le`: the model of Python
`sorted` (any stable sort agrees with it up to the ordering facts proved
below). -/
def sortBy (le : α → α → Bool) : List α → List α
  | [] => []
  | a :: l => insertSorted le a (sortBy le l)

/-- A default profile used only to totalise Python dict indexing
(`self._profiles[i]`); the liveness invariants show it is never returned by
any reachable query. -/
def defaultProfile : UserProfile := ⟨"", "", "", none⟩

/-- The sorted friend-id list of `get_friends` (`sorted(self._friendships[...])`),
empty when the profile has no id or no adjacency entry. -/
def get_friend_ids (net : Network) (p : UserProfile) : List Nat :=
  match p.userId with
  | none => []
  | some uid =>
    match net.friendships uid with
    | none => []
    | some l => sortBy (fun a b => decide (a ≤ b)) l

/-- Python `SocialNetwork.get_friends`: the profiles of the sorted friend ids. -/
def get_friends (net : Network) (p : UserProfile) : List UserProfile :=
  (get_friend_ids net p).map (fun i => (net.profiles i).getD defaultProfile)

/-- The (fid, fof) contribution stream of `suggest_friends`: for each direct
friend `fid` (in adjacency order), each friend-of-friend that is neither the
queried id nor a direct friend. -/
def suggestContribs (net : Network) (uid : Nat) (D : List Nat) : List Nat :=
  D.flatMap (fun fid =>
    ((net.friendships fid).getD []).filter
      (fun c => decide (c ≠ uid) && decide (c ∉ D)))

/-- A single `candidate_scores[fof_id] = candidate_scores.get(fof_id, 0) + 1` step
on the insertion-ordered dict (a Python dict appends a fresh key at the end). -/
def bump (scores : List (Nat × Nat)) (c : Nat) : List (Nat × Nat) :=
  if scores.any (fun e => e.1 == c) then
    scores.map (fun e => if e.1 == c then (e.1, e.2 + 1) else e)
  else scores ++ [(c, 1)]

/-- The `candidate_scores` dict of `suggest_friends`, as an insertion-ordered
association list. -/
def suggestScores (net : Network) (uid : Nat) (D : List Nat) :
    List (Nat × Nat) :=
  (suggestContribs net uid D).foldl bump []

/-- The name used by the sort key `(-score, name)`; totalises
`self._profiles[item[0]].name` (liveness of candidates is proved below). -/
def nameOf (net : Network) (c : Nat) : String :=
  ((net.profiles c).getD defaultProfile).name

/-- The comparator underlying `sorted(candidate_scores.items(),
key=lambda item: (-item[1], self._profiles[item[0]].name))`:
`(c₁,s₁)` precedes `(c₂,s₂)` iff `s₁ > s₂`, or scores tie and the first name
is not the larger. -/
def suggestKeyLe (net : Network) (a b : Nat × Nat) : Bool :=
  decide (b.2 < a.2) || (a.2 == b.2 && decide (nameOf net a.1 ≤ nameOf net b.1))

/-- The sorted `(candidate, score)` list of `suggest_friends`. -/
def suggestSorted (net : Network) (uid : Nat) (D : List Nat) :
    List (Nat × Nat) :=
  sortBy (suggestKeyLe net) (suggestScores net uid D)

/-- Python `SocialNetwork.suggest_friends`: empty when the profile has no id or no
adjacency entry, otherwise the candidate profiles in sorted order. -/
def suggest_friends (net : Network) (p : UserProfile) : List UserProfile :=
  match p.userId with
  | none => []
  | some uid =>
    match net.friendships uid with
    | none => []
    | some D =>
      (suggestSorted net uid D).map
        (fun e => (net.profiles e.1).getD defaultProfile)

/-- Python `SocialNetwork.find_profile`: all profiles with the given name, in
ascending id order. -/
def find_profile (net : Network) (nm : String) : List UserProfile :=
  (sortBy (fun a b => decide (a ≤ b)) ((net.nameIndex nm).getD [])).map
    (fun i => (net.profiles i).getD defaultProfile)

/-- The public mutating API, as the repository's callers invoke it: the
friendship operations fetch both profile objects from the id→profile map and
are no-ops when either id is absent (exactly the guard in `main.py`). -/
inductive Op where
  | addProfile (nm em ph : String)
  | updateProfile (uid : Nat) (nn ne np : Option String)
  | removeProfile (uid : Nat)
  | addFriendship (id1 id2 : Nat)
  | removeFriendship (id1 id2 : Nat)

/-- State transition of one public operation (result discarded). -/
def applyOp (net : Network) (op : Op) : Network :=
  match op with
  | .addProfile nm em ph => (add_profile net nm em ph).1
  | .updateProfile uid nn ne np => (update_profile net uid nn ne np).1
  | .removeProfile uid => (remove_profile net uid).1
  | .addFriendship id1 id2 =>
    match net.profiles id1, net.profiles id2 with
    | some p1, some p2 => (add_friendship net p1 p2).1
    | _, _ => net
  | .removeFriendship id1 id2 =>
    match net.profiles id1, net.profiles id2 with
    | some p1, some p2 => (remove_friendship net p1 p2).1
    | _, _ => net

/-- Run a sequence of public operations from the empty store. -/
def run (ops : List Op) : Network :=
  ops.foldl applyOp Network.empty

/-- A state is reachable iff some sequence of public operations produces it
from the empty store. -/
def Reachable (net : Network) : Prop :=
  ∃ ops : List Op, net = run ops

/-- The adjacency set of an id, empty when the id has no entry. -/
def friendsOf (net : Network) (i : Nat) : List Nat :=
  (net.friendships i).getD []

section Helpers

variable {α β : Type} [DecidableEq α]

theorem upd_eval (f : α → Option β) (a : α) (b : Option β) (x : α) :
    upd f a b x = if x = a then b else f x := rfl

theorem upd_same (f : α → Option β) (a : α) (b : Option β) :
    upd f a b a = b := by
  simp [upd]

theorem upd_ne (f : α → Option β) (a : α) (b : Option β) {x : α}
    (h : x ≠ a) : upd f a b x = f x := by
  simp [upd, h]

theorem mem_insertNat {y x : Nat} {l : List Nat} :
    y ∈ insertNat x l ↔ y = x ∨ y ∈ l := by
  unfold insertNat
  split <;> rename_i hx
  · constructor
    · exact fun h => Or.inr h
    · rintro (rfl | h)
      · exact hx
      · exact h
  · simp

theorem nodup_insertNat {x : Nat} {l : List Nat} (h : l.Nodup) :
    (insertNat x l).Nodup := by
  unfold insertNat
  split <;> rename_i hx
  · exact h
  · exact List.Nodup.cons hx h

theorem mem_removeNat {y x : Nat} {l : List Nat} :
    y ∈ removeNat x l ↔ y ∈ l ∧ y ≠ x := by
  simp [removeNat]

theorem nodup_removeNat {x : Nat} {l : List Nat} (h : l.Nodup) :
    (removeNat x l).Nodup :=
  List.Nodup.filter _ h

theorem eqData_iff {p q : UserProfile} :
    eqData p q = true ↔ p.name = q.name ∧ p.email = q.email ∧ p.phone = q.phone := by
  simp [eqData, and_assoc]

theorem eqData_refl (p : UserProfile) : eqData p p = true := by
  simp [eqData]

theorem eqData_symm {p q : UserProfile} (h : eqData p q = true) :
    eqData q p = true := by
  rw [eqData_iff] at h ⊢
  exact ⟨h.1.symm, h.2.1.symm, h.2.2.symm⟩

theorem eqData_trans {p q r : UserProfile} (h1 : eqData p q = true)
    (h2 : eqData q r = true) : eqData p r = true := by
  rw [eqData_iff] at h1 h2 ⊢
  exact ⟨h1.1.trans h2.1, h1.2.1.trans h2.2.1, h1.2.2.trans h2.2.2⟩

theorem inSet_iff {s : List UserProfile} {p : UserProfile} :
    inSet s p = true ↔ ∃ q ∈ s, eqData p q = true := by
  simp [inSet]

theorem mem_setDiscard {s : List UserProfile} {p q : UserProfile} :
    q ∈ setDiscard s p ↔ q ∈ s ∧ eqData q p = false := by
  simp [setDiscard]

theorem mem_setAdd {s : List UserProfile} {p q : UserProfile} :
    q ∈ setAdd s p → q = p ∨ q ∈ s := by
  unfold setAdd
  split
  · exact fun h => Or.inr h
  · intro h
    rcases List.mem_cons.mp h with h | h
    · exact Or.inl h
    · exact Or.inr h

end Helpers

/-- The conjunction of structural invariants maintained by every public
operation:

* `idCoh`: the stored profile at key `uid` carries `user_id = uid`;
* `domEq`: `_profiles` and `_friendships` have the same key set;
* `closed`: members of adjacency sets are live ids;
* `fsymm`: the adjacency relation is symmetric;
* `fnodup`: adjacency sets hold no duplicates (they model Python sets);
* `noSelf`: no id is its own friend;
* `idxSound`: a name-index entry is nonempty, duplicate-free, and lists only
  live ids bearing that name;
* `idxComplete`: every live profile is indexed under its name;
* `setDistinct`: the duplicate-detection set never holds two data-equal
  members (a Python hash set cannot);
* `setLive`: every member of the duplicate-detection set is data-equal to
  some live profile (no stale entries);
* `fresh`: every live id is below the id counter. -/
structure Inv (net : Network) : Prop where
  idCoh : ∀ uid p, net.profiles uid = some p → p.userId = some uid
  domEq : ∀ uid, net.profiles uid = none ↔ net.friendships uid = none
  closed : ∀ uid l j, net.friendships uid = some l → j ∈ l →
    net.profiles j ≠ none
  fsymm : ∀ i li j, net.friendships i = some li → j ∈ li →
    ∃ lj, net.friendships j = some lj ∧ i ∈ lj
  fnodup : ∀ uid l, net.friendships uid = some l → l.Nodup
  noSelf : ∀ uid l, net.friendships uid = some l → uid ∉ l
  idxSound : ∀ nm l, net.nameIndex nm = some l →
    l ≠ [] ∧ l.Nodup ∧ ∀ uid ∈ l, ∃ p, net.profiles uid = some p ∧ p.name = nm
  idxComplete : ∀ uid p, net.profiles uid = some p →
    ∃ l, net.nameIndex p.name = some l ∧ uid ∈ l
  setDistinct : net.profileSet.Pairwise (fun a b => eqData a b = false)
  setLive : ∀ m ∈ net.profileSet, ∃ uid p, net.profiles uid = some p ∧
    eqData m p = true
  fresh : ∀ uid p, net.profiles uid = some p → uid < net.nextId

theorem inv_empty : Inv Network.empty := by
  constructor <;> intros <;> simp_all [Network.empty]

theorem insertNat_ne_nil (x : Nat) (l : List Nat) : insertNat x l ≠ [] := by
  unfold insertNat
  split <;> rename_i hx
  · intro hnil
    rw [hnil] at hx
    exact absurd hx (List.not_mem_nil x)
  · simp

theorem inv_add_profile (net : Network) (nm em ph : String) (h : Inv net) :
    Inv (add_profile net nm em ph).1 := by
  by_cases hdup : inSet net.profileSet ⟨nm, em, ph, none⟩ = true
  · simpa [add_profile, hdup] using h
  · have hdup2 : ∀ q ∈ net.profileSet,
        eqData ⟨nm, em, ph, none⟩ q = false := by
      intro q hq
      by_contra hne
      exact hdup (inSet_iff.mpr ⟨q, hq, by
        revert hne
        cases eqData ⟨nm, em, ph, none⟩ q <;> simp⟩)
    have hpnone : net.profiles net.nextId = none := by
      cases h2 : net.profiles net.nextId with
      | none => rfl
      | some p => exact absurd (h.fresh _ _ h2) (lt_irrefl _)
    have hfnone : net.friendships net.nextId = none := (h.domEq _).mp hpnone
    have hlive_ne : ∀ {j : Nat} {p : UserProfile}, net.profiles j = some p →
        j ≠ net.nextId := by
      intro j p hj hje
      rw [hje, hpnone] at hj
      exact Option.noConfusion hj
    rw [show (add_profile net nm em ph).1 =
        { profiles := upd net.profiles net.nextId
            (some ⟨nm, em, ph, some net.nextId⟩)
          nameIndex := upd net.nameIndex nm
            (some (insertNat net.nextId ((net.nameIndex nm).getD [])))
          profileSet := ⟨nm, em, ph, some net.nextId⟩ :: net.profileSet
          friendships := upd net.friendships net.nextId (some [])
          nextId := net.nextId + 1 } by
      simp [add_profile, hdup]]
    constructor <;> dsimp only
    · -- idCoh
      intro uid p hp
      by_cases hu : uid = net.nextId
      · subst hu
        rw [upd_same] at hp
        cases hp
        rfl
      · rw [upd_ne _ _ _ hu] at hp
        exact h.idCoh uid p hp
    · -- domEq
      intro uid
      by_cases hu : uid = net.nextId
      · subst hu
        rw [upd_same, upd_same]
        simp

      · rw [upd_ne _ _ _ hu, upd_ne _ _ _ hu]
        exact h.domEq uid
    · -- closed
      intro uid l j hf hj
      by_cases hu : uid = net.nextId
      · subst hu
        rw [upd_same] at hf
        cases hf
        exact absurd hj (List.not_mem_nil j)
      · rw [upd_ne _ _ _ hu] at hf
        have hlj := h.closed uid l j hf hj
        have hjne : j ≠ net.nextId := by
          intro hje
          rw [hje, hpnone] at hlj
          exact hlj rfl
        rw [upd_ne _ _ _ hjne]
        exact hlj
    · -- fsymm
      intro i li j hf hj
      by_cases hu : i = net.nextId
      · subst hu
        rw [upd_same] at hf
        cases hf
        exact absurd hj (List.not_mem_nil j)
      · rw [upd_ne _ _ _ hu] at hf
        obtain ⟨lj, hlj, hmem⟩ := h.fsymm i li j hf hj
        have hjne : j ≠ net.nextId := by
          intro hje
          rw [hje, hfnone] at hlj
          exact Option.noConfusion hlj
        exact ⟨lj, by rw [upd_ne _ _ _ hjne]; exact hlj, hmem⟩
    · -- fnodup
      intro uid l hf
      by_cases hu : uid = net.nextId
      · subst hu
        rw [upd_same] at hf
        cases hf
        exact List.nodup_nil
      · rw [upd_ne _ _ _ hu] at hf
        exact h.fnodup uid l hf
    · -- noSelf
      intro uid l hf
      by_cases hu : uid = net.nextId
      · subst hu
        rw [upd_same] at hf
        cases hf
        exact List.not_mem_nil _
      · rw [upd_ne _ _ _ hu] at hf
        exact h.noSelf uid l hf
    · -- idxSound
      intro n l hn
      by_cases hne : n = nm
      · subst hne
        rw [upd_same] at hn
        cases hn
        refine ⟨insertNat_ne_nil _ _, ?_, ?_⟩
        · apply nodup_insertNat
          cases h0 : net.nameIndex n with
          | none => simp
          | some l0 =>
            simp only [h0, Option.getD_some]
            exact (h.idxSound n l0 h0).2.1
        · intro uid hu
          rcases mem_insertNat.mp hu with rfl | hu
          · exact ⟨⟨n, em, ph, some net.nextId⟩, by rw [upd_same], rfl⟩
          · cases h0 : net.nameIndex n with
            | none => simp [h0] at hu
            | some l0 =>
              rw [h0] at hu
              simp only [Option.getD_some] at hu
              obtain ⟨p, hp, hpn⟩ := (h.idxSound n l0 h0).2.2 uid hu
              exact ⟨p, by rw [upd_ne _ _ _ (hlive_ne hp)]; exact hp, hpn⟩
      · rw [upd_ne _ _ _ hne] at hn
        obtain ⟨h1, h2, h3⟩ := h.idxSound n l hn
        refine ⟨h1, h2, ?_⟩
        intro uid hu
        obtain ⟨p, hp, hpn⟩ := h3 uid hu
        exact ⟨p, by rw [upd_ne _ _ _ (hlive_ne hp)]; exact hp, hpn⟩
    · -- idxComplete
      intro uid p hp
      by_cases hu : uid = net.nextId
      · subst hu
        rw [upd_same] at hp
        cases hp
        exact ⟨insertNat net.nextId ((net.nameIndex nm).getD []),
          by rw [upd_same], mem_insertNat.mpr (Or.inl rfl)⟩
      · rw [upd_ne _ _ _ hu] at hp
        obtain ⟨l, hl, hmem⟩ := h.idxComplete uid p hp
        by_cases hpn : p.name = nm
        · refine ⟨insertNat net.nextId ((net.nameIndex p.name).getD []),
            ?_, ?_⟩
          · rw [hpn, upd_same]
          · rw [hl]
            simp only [Option.getD_some]
            exact mem_insertNat.mpr (Or.inr hmem)
        · exact ⟨l, by rw [upd_ne _ _ _ hpn]; exact hl, hmem⟩
    · -- setDistinct
      refine List.Pairwise.cons ?_ h.setDistinct
      intro q hq
      have := hdup2 q hq
      simpa [eqData] using this
    · -- setLive
      intro m hm
      rcases List.mem_cons.mp hm with rfl | hm
      · exact ⟨net.nextId, ⟨nm, em, ph, some net.nextId⟩, by rw [upd_same],
          eqData_refl _⟩
      · obtain ⟨uid, p, hp, he⟩ := h.setLive m hm
        exact ⟨uid, p, by rw [upd_ne _ _ _ (hlive_ne hp)]; exact hp, he⟩
    · -- fresh
      intro uid p hp
      by_cases hu : uid = net.nextId
      · subst hu
        exact Nat.lt_succ_self _
      · rw [upd_ne _ _ _ hu] at hp
        exact Nat.lt_succ_of_lt (h.fresh uid p hp)

theorem pairwise_setDiscard {s : List UserProfile} {p : UserProfile}
    (h : s.Pairwise (fun a b => eqData a b = false)) :
    (setDiscard s p).Pairwise (fun a b => eqData a b = false) :=
  List.Pairwise.sublist (List.filter_sublist s) h

theorem pairwise_setAdd {s : List UserProfile} {p : UserProfile}
    (h : s.Pairwise (fun a b => eqData a b = false)) :
    (setAdd s p).Pairwise (fun a b => eqData a b = false) := by
  unfold setAdd
  split <;> rename_i hin
  · exact h
  · refine List.Pairwise.cons ?_ h
    intro q hq
    by_contra hne
    refine hin (inSet_iff.mpr ⟨q, hq, ?_⟩)
    revert hne
    cases eqData p q <;> simp

theorem applyUpdate_userId (p : UserProfile) (nn ne np : Option String) :
    (applyUpdate p nn ne np).userId = p.userId := rfl

theorem mem_setAdd_setDiscard {s : List UserProfile} {p q m : UserProfile}
    (hm : m ∈ setAdd (setDiscard s p) q) :
    m = q ∨ (m ∈ s ∧ eqData m p = false) := by
  rcases mem_setAdd hm with h | h
  · exact Or.inl h
  · exact Or.inr (mem_setDiscard.mp h)

/-- Shared core of the `update_profile` preservation proof: everything except
the name index, which differs between the renaming and non-renaming paths. -/
theorem inv_update_core (net : Network) (uid : Nat)
    (profile p2 : UserProfile) (idx : String → Option (List Nat))
    (hp : net.profiles uid = some profile)
    (hid : p2.userId = some uid)
    (hidxS : ∀ nm l, idx nm = some l → l ≠ [] ∧ l.Nodup ∧
      ∀ j ∈ l, ∃ q, upd net.profiles uid (some p2) j = some q ∧ q.name = nm)
    (hidxC : ∀ j q, upd net.profiles uid (some p2) j = some q →
      ∃ l, idx q.name = some l ∧ j ∈ l)
    (h : Inv net) :
    Inv { profiles := upd net.profiles uid (some p2)
          nameIndex := idx
          profileSet := setAdd (setDiscard net.profileSet profile) p2
          friendships := net.friendships
          nextId := net.nextId } := by
  have hupd_ne_none : ∀ j, net.profiles j ≠ none →
      upd net.profiles uid (some p2) j ≠ none := by
    intro j hj
    by_cases hju : j = uid
    · subst hju
      rw [upd_same]
      exact Option.noConfusion
    · rw [upd_ne _ _ _ hju]
      exact hj
  constructor <;> dsimp only
  · -- idCoh
    intro j q hq
    by_cases hju : j = uid
    · subst hju
      rw [upd_same] at hq
      cases hq
      exact hid
    · rw [upd_ne _ _ _ hju] at hq
      exact h.idCoh j q hq
  · -- domEq
    intro j
    by_cases hju : j = uid
    · subst hju
      rw [upd_same]
      have hf : net.friendships j ≠ none := by
        intro hfn
        rw [(h.domEq j).mpr hfn] at hp
        exact Option.noConfusion hp
      simp [hf]
    · rw [upd_ne _ _ _ hju]
      exact h.domEq j
  · -- closed
    intro i l j hf hj
    exact hupd_ne_none j (h.closed i l j hf hj)
  · -- fsymm
    exact h.fsymm
  · -- fnodup
    exact h.fnodup
  · -- noSelf
    exact h.noSelf
  · -- idxSound
    exact hidxS
  · -- idxComplete
    exact hidxC
  · -- setDistinct
    exact pairwise_setAdd (pairwise_setDiscard h.setDistinct)
  · -- setLive
    intro m hm
    rcases mem_setAdd_setDiscard hm with rfl | ⟨hms, hmp⟩
    · exact ⟨uid, m, by rw [upd_same], eqData_refl m⟩
    · obtain ⟨j, q, hq, he⟩ := h.setLive m hms
      have hju : j ≠ uid := by
        intro hje
        subst hje
        rw [hp] at hq
        cases hq
        rw [he] at hmp
        exact Bool.noConfusion hmp
      exact ⟨j, q, by rw [upd_ne _ _ _ hju]; exact hq, he⟩
  · -- fresh
    intro j q hq
    by_cases hju : j = uid
    · subst hju
      exact h.fresh j profile hp
    · rw [upd_ne _ _ _ hju] at hq
      exact h.fresh j q hq

/-- Only the profile bearing a name is listed under that name's index entry. -/
theorem uid_not_in_foreign_entry (net : Network) (h : Inv net) {uid : Nat}
    {profile : UserProfile} (hp : net.profiles uid = some profile)
    {n : String} {l : List Nat} (hn : net.nameIndex n = some l)
    (hne : n ≠ profile.name) : uid ∉ l := by
  intro hmem
  obtain ⟨q, hq, hqn⟩ := (h.idxSound n l hn).2.2 uid hmem
  rw [hp] at hq
  cases hq
  exact hne hqn.symm

/-- Preservation for `update_profile` when the stored name does not change. -/
theorem inv_update_samename (net : Network) (uid : Nat)
    (profile p2 : UserProfile)
    (hp : net.profiles uid = some profile)
    (hid : p2.userId = some uid)
    (hname : p2.name = profile.name)
    (h : Inv net) :
    Inv { profiles := upd net.profiles uid (some p2)
          nameIndex := net.nameIndex
          profileSet := setAdd (setDiscard net.profileSet profile) p2
          friendships := net.friendships
          nextId := net.nextId } := by
  apply inv_update_core net uid profile p2 _ hp hid ?_ ?_ h
  · intro nm l hn
    obtain ⟨h1, h2, h3⟩ := h.idxSound nm l hn
    refine ⟨h1, h2, fun j hj => ?_⟩
    obtain ⟨q, hq, hqn⟩ := h3 j hj
    by_cases hju : j = uid
    · subst hju
      rw [hp] at hq
      cases hq
      exact ⟨p2, by rw [upd_same], hname.trans hqn⟩
    · exact ⟨q, by rw [upd_ne _ _ _ hju]; exact hq, hqn⟩
  · intro j q hq
    by_cases hju : j = uid
    · rw [hju, upd_same] at hq
      cases hq
      obtain ⟨l, hl, hjl⟩ := h.idxComplete uid profile hp
      exact ⟨l, by rw [hname]; exact hl, by rw [hju]; exact hjl⟩
    · rw [upd_ne _ _ _ hju] at hq
      exact h.idxComplete j q hq

/-- Preservation for the renaming path of `update_profile`, stated for any
intermediate map `m1` with the two properties shared by the
pruned-and-unpruned branches of `renameIndex`. -/
theorem inv_update_rename_aux (net : Network) (uid : Nat)
    (profile p2 : UserProfile) (s : String) (m1 : String → Option (List Nat))
    (hp : net.profiles uid = some profile)
    (hid : p2.userId = some uid)
    (hname : p2.name = s)
    (hs : s ≠ profile.name)
    (hm1a : ∀ l, m1 profile.name = some l →
      l = removeNat uid ((net.nameIndex profile.name).getD []) ∧ l ≠ [])
    (hm1b : ∀ n, n ≠ profile.name → m1 n = net.nameIndex n)
    (hm1c : ∀ l0, net.nameIndex profile.name = some l0 →
      removeNat uid l0 ≠ [] → m1 profile.name = some (removeNat uid l0))
    (h : Inv net) :
    Inv { profiles := upd net.profiles uid (some p2)
          nameIndex := upd m1 s (some (insertNat uid ((m1 s).getD [])))
          profileSet := setAdd (setDiscard net.profileSet profile) p2
          friendships := net.friendships
          nextId := net.nextId } := by
  have hm1s : m1 s = net.nameIndex s := hm1b s hs
  apply inv_update_core net uid profile p2 _ hp hid ?_ ?_ h
  · -- idxSound
    intro n l hn
    by_cases hns : n = s
    · subst hns
      rw [upd_same] at hn
      cases hn
      rw [hm1s]
      refine ⟨insertNat_ne_nil _ _, ?_, ?_⟩
      · cases h0 : net.nameIndex n with
        | none => simp [insertNat]
        | some l0 =>
          simp only [h0, Option.getD_some]
          exact nodup_insertNat (h.idxSound n l0 h0).2.1
      · intro j hj
        rcases mem_insertNat.mp hj with hj1 | hj2
        · exact ⟨p2, by rw [hj1, upd_same], hname⟩
        · cases h0 : net.nameIndex n with
          | none => simp [h0] at hj2
          | some l0 =>
            rw [h0] at hj2
            simp only [Option.getD_some] at hj2
            obtain ⟨q, hq, hqn⟩ := (h.idxSound n l0 h0).2.2 j hj2
            have hju : j ≠ uid := fun hje =>
              uid_not_in_foreign_entry net h hp h0 hs (hje ▸ hj2)
            exact ⟨q, by rw [upd_ne _ _ _ hju]; exact hq, hqn⟩
    · rw [upd_ne _ _ _ hns] at hn
      by_cases hno : n = profile.name
      · subst hno
        obtain ⟨hl, hlne⟩ := hm1a l hn
        cases h0 : net.nameIndex profile.name with
        | none =>
          rw [h0] at hl
          simp [removeNat] at hl
          exact absurd hl hlne
        | some l0 =>
          rw [h0] at hl
          simp only [Option.getD_some] at hl
          subst hl
          refine ⟨hlne, nodup_removeNat (h.idxSound profile.name l0 h0).2.1, ?_⟩
          intro j hj
          obtain ⟨hj0, hju⟩ := mem_removeNat.mp hj
          obtain ⟨q, hq, hqn⟩ := (h.idxSound profile.name l0 h0).2.2 j hj0
          exact ⟨q, by rw [upd_ne _ _ _ hju]; exact hq, hqn⟩
      · rw [hm1b n hno] at hn
        obtain ⟨h1, h2, h3⟩ := h.idxSound n l hn
        refine ⟨h1, h2, fun j hj => ?_⟩
        obtain ⟨q, hq, hqn⟩ := h3 j hj
        have hju : j ≠ uid := by
          intro hje
          subst hje
          exact uid_not_in_foreign_entry net h hp hn hno hj
        exact ⟨q, by rw [upd_ne _ _ _ hju]; exact hq, hqn⟩
  · -- idxComplete
    intro j q hq
    by_cases hju : j = uid
    · rw [hju, upd_same] at hq
      cases hq
      exact ⟨insertNat uid ((m1 s).getD []), by rw [hname, upd_same],
        mem_insertNat.mpr (Or.inl hju)⟩
    · rw [upd_ne _ _ _ hju] at hq
      obtain ⟨l, hl, hjl⟩ := h.idxComplete j q hq
      by_cases hqs : q.name = s
      · rw [hqs] at hl
        refine ⟨insertNat uid ((m1 s).getD []), ?_, ?_⟩
        · rw [hqs, upd_same]
        · rw [hm1s, hl]
          simp only [Option.getD_some]
          exact mem_insertNat.mpr (Or.inr hjl)
      · by_cases hqo : q.name = profile.name
        · rw [hqo] at hl
          have hmem : j ∈ removeNat uid l := mem_removeNat.mpr ⟨hjl, hju⟩
          have hne2 : removeNat uid l ≠ [] := by
            intro hnil
            rw [hnil] at hmem
            exact absurd hmem (List.not_mem_nil j)
          refine ⟨removeNat uid l, ?_, hmem⟩
          rw [upd_ne _ _ _ hqs, hqo]
          exact hm1c l hl hne2
        · refine ⟨l, ?_, hjl⟩
          rw [upd_ne _ _ _ hqs, hm1b _ hqo]
          exact hl

/-- Preservation for the renaming path of `update_profile`. -/
theorem inv_update_rename (net : Network) (uid : Nat)
    (profile p2 : UserProfile) (s : String)
    (hp : net.profiles uid = some profile)
    (hid : p2.userId = some uid)
    (hname : p2.name = s)
    (hs : s ≠ profile.name)
    (h : Inv net) :
    Inv { profiles := upd net.profiles uid (some p2)
          nameIndex := renameIndex net uid profile.name s
          profileSet := setAdd (setDiscard net.profileSet profile) p2
          friendships := net.friendships
          nextId := net.nextId } := by
  unfold renameIndex
  apply inv_update_rename_aux net uid profile p2 s _ hp hid hname hs ?_ ?_ ?_ h
  · intro l hl
    unfold dropFromNameIndex at hl
    by_cases hemp : (removeNat uid ((net.nameIndex profile.name).getD [])).isEmpty = true
    · rw [if_pos hemp, upd_same] at hl
      exact Option.noConfusion hl
    · rw [if_neg hemp, upd_same] at hl
      cases hl
      refine ⟨rfl, ?_⟩
      intro hnil
      rw [hnil] at hemp
      exact hemp rfl
  · intro n hn
    unfold dropFromNameIndex
    split
    · exact upd_ne _ _ _ hn
    · exact upd_ne _ _ _ hn
  · intro l0 h0 hne
    unfold dropFromNameIndex
    rw [h0]
    simp only [Option.getD_some]
    rw [if_neg (by simpa [List.isEmpty_iff] using hne), upd_same]

/-- Theorem that `update_profile` preserves all structural invariants. -/
theorem inv_update_profile (net : Network) (uid : Nat)
    (nn ne np : Option String) (h : Inv net) :
    Inv (update_profile net uid nn ne np).1 := by
  cases hp : net.profiles uid with
  | none => simpa [update_profile, hp] using h
  | some profile =>
    have hid : (applyUpdate profile nn ne np).userId = some uid := by
      rw [applyUpdate_userId]
      exact h.idCoh uid profile hp
    rcases nn with _ | s
    · rw [show (update_profile net uid none ne np).1 =
          { profiles := upd net.profiles uid (some (applyUpdate profile none ne np))
            nameIndex := net.nameIndex
            profileSet := setAdd (setDiscard net.profileSet profile)
              (applyUpdate profile none ne np)
            friendships := net.friendships
            nextId := net.nextId } from by simp [update_profile, hp]]
      exact inv_update_samename net uid profile _ hp hid rfl h
    · by_cases hg : s ≠ "" ∧ s ≠ profile.name
      · rw [show (update_profile net uid (some s) ne np).1 =
            { profiles := upd net.profiles uid
                (some (applyUpdate profile (some s) ne np))
              nameIndex := renameIndex net uid profile.name s
              profileSet := setAdd (setDiscard net.profileSet profile)
                (applyUpdate profile (some s) ne np)
              friendships := net.friendships
              nextId := net.nextId } from by simp [update_profile, hp, hg]]
        have hname : (applyUpdate profile (some s) ne np).name = s := by
          simp [applyUpdate, hg.1]
        exact inv_update_rename net uid profile _ s hp hid hname hg.2 h
      · rw [show (update_profile net uid (some s) ne np).1 =
            { profiles := upd net.profiles uid
                (some (applyUpdate profile (some s) ne np))
              nameIndex := net.nameIndex
              profileSet := setAdd (setDiscard net.profileSet profile)
                (applyUpdate profile (some s) ne np)
              friendships := net.friendships
              nextId := net.nextId } from by simp [update_profile, hp, hg]]
        have hname : (applyUpdate profile (some s) ne np).name = profile.name := by
          by_cases hse : s = ""
          · simp [applyUpdate, hse]
          · have hsp : s = profile.name := by
              rcases not_and_or.mp hg with h1 | h2
              · exact absurd hse (by simpa using h1)
              · simpa using h2
            simp [applyUpdate, hse, hsp]
        exact inv_update_samename net uid profile _ hp hid hname h

theorem dropFromNameIndex_self (net : Network) (uid : Nat) (oldN : String)
    {l : List Nat} (hl : dropFromNameIndex net uid oldN oldN = some l) :
    l = removeNat uid ((net.nameIndex oldN).getD []) ∧ l ≠ [] := by
  unfold dropFromNameIndex at hl
  by_cases hemp : (removeNat uid ((net.nameIndex oldN).getD [])).isEmpty = true
  · rw [if_pos hemp, upd_same] at hl
    exact Option.noConfusion hl
  · rw [if_neg hemp, upd_same] at hl
    cases hl
    refine ⟨rfl, ?_⟩
    intro hnil
    rw [hnil] at hemp
    exact hemp rfl

theorem dropFromNameIndex_other (net : Network) (uid : Nat) (oldN : String)
    {n : String} (hn : n ≠ oldN) :
    dropFromNameIndex net uid oldN n = net.nameIndex n := by
  unfold dropFromNameIndex
  split
  · exact upd_ne _ _ _ hn
  · exact upd_ne _ _ _ hn

theorem dropFromNameIndex_some (net : Network) (uid : Nat) (oldN : String)
    {l0 : List Nat} (h0 : net.nameIndex oldN = some l0)
    (hne : removeNat uid l0 ≠ []) :
    dropFromNameIndex net uid oldN oldN = some (removeNat uid l0) := by
  unfold dropFromNameIndex
  rw [h0]
  simp only [Option.getD_some]
  rw [if_neg (by simpa [List.isEmpty_iff] using hne), upd_same]

theorem severFriendships_self (net : Network) (uid : Nat) :
    severFriendships net uid uid = none := by
  unfold severFriendships
  rw [upd_same]

theorem severFriendships_other (net : Network) (uid : Nat) {j : Nat}
    (hj : j ≠ uid) :
    severFriendships net uid j =
      if j ∈ (net.friendships uid).getD [] then
        (net.friendships j).map (removeNat uid)
      else net.friendships j := by
  unfold severFriendships
  rw [upd_ne _ _ _ hj]

/-- Theorem that `remove_profile` preserves all structural invariants. -/
theorem inv_remove_profile (net : Network) (uid : Nat) (h : Inv net) :
    Inv (remove_profile net uid).1 := by
  cases hp : net.profiles uid with
  | none => simpa [remove_profile, hp] using h
  | some profile =>
    rw [show (remove_profile net uid).1 =
        { profiles := upd net.profiles uid none
          nameIndex := dropFromNameIndex net uid profile.name
          profileSet := setDiscard net.profileSet profile
          friendships := severFriendships net uid
          nextId := net.nextId } from by simp [remove_profile, hp]]
    -- an id absent from the removed profile's adjacency set never holds uid
    have hnotnbr : ∀ {j : Nat} {lj : List Nat}, net.friendships j = some lj →
        j ∉ (net.friendships uid).getD [] → uid ∉ lj := by
      intro j lj hj hnb hin
      obtain ⟨lu, hlu, hjin⟩ := h.fsymm j lj uid hj hin
      rw [hlu] at hnb
      exact hnb hjin
    constructor <;> dsimp only
    · -- idCoh
      intro j q hq
      by_cases hju : j = uid
      · rw [hju, upd_same] at hq
        exact Option.noConfusion hq
      · rw [upd_ne _ _ _ hju] at hq
        exact h.idCoh j q hq
    · -- domEq
      intro j
      by_cases hju : j = uid
      · rw [hju, upd_same, severFriendships_self]
        simp
      · rw [upd_ne _ _ _ hju, severFriendships_other net uid hju]
        split <;> rename_i hnb
        · rw [h.domEq j]
          cases net.friendships j <;> simp
        · exact h.domEq j
    · -- closed
      intro j l k hf hk
      by_cases hju : j = uid
      · rw [hju, severFriendships_self] at hf
        exact Option.noConfusion hf
      · rw [severFriendships_other net uid hju] at hf
        have hku : k ≠ uid ∧ k ∈ (net.friendships j).getD [] := by
          revert hf
          split <;> rename_i hnb
          · intro hf
            cases hj : net.friendships j with
            | none => rw [hj] at hf; exact Option.noConfusion hf
            | some lj =>
              rw [hj] at hf
              simp only [Option.map_some'] at hf
              cases hf
              obtain ⟨hk1, hk2⟩ := mem_removeNat.mp hk
              simp only [Option.getD_some]
              exact ⟨hk2, hk1⟩
          · intro hf
            have hnin := hnotnbr hf hnb
            rw [hf]
            simp only [Option.getD_some]
            refine ⟨?_, hk⟩
            intro hke
            rw [hke] at hk
            exact hnin hk
        obtain ⟨hku1, hku2⟩ := hku
        rw [upd_ne _ _ _ hku1]
        cases hj : net.friendships j with
        | none => rw [hj] at hku2; simp at hku2
        | some lj =>
          rw [hj] at hku2
          simp only [Option.getD_some] at hku2
          exact h.closed j lj k hj hku2
    · -- fsymm
      intro i li j hf hj
      by_cases hiu : i = uid
      · rw [hiu, severFriendships_self] at hf
        exact Option.noConfusion hf
      · rw [severFriendships_other net uid hiu] at hf
        -- extract the original list and the facts about j
        have hfacts : ∃ li0, net.friendships i = some li0 ∧ j ∈ li0 ∧ j ≠ uid := by
          revert hf
          split <;> rename_i hnb
          · intro hf
            cases hi : net.friendships i with
            | none => rw [hi] at hf; exact Option.noConfusion hf
            | some li0 =>
              rw [hi] at hf
              simp only [Option.map_some'] at hf
              cases hf
              obtain ⟨hj1, hj2⟩ := mem_removeNat.mp hj
              exact ⟨li0, rfl, hj1, hj2⟩
          · intro hf
            have hnin := hnotnbr hf hnb
            refine ⟨li, hf, hj, ?_⟩
            intro hje
            rw [hje] at hj
            exact hnin hj
        obtain ⟨li0, hi, hjin, hju⟩ := hfacts
        obtain ⟨lj, hlj, hiin⟩ := h.fsymm i li0 j hi hjin
        refine ⟨?_, ?_, ?_⟩
        · exact if j ∈ (net.friendships uid).getD [] then removeNat uid lj else lj
        · rw [severFriendships_other net uid hju]
          split
          · rw [hlj]
            simp
          · exact hlj
        · split
          · exact mem_removeNat.mpr ⟨hiin, hiu⟩
          · exact hiin
    · -- fnodup
      intro j l hf
      by_cases hju : j = uid
      · rw [hju, severFriendships_self] at hf
        exact Option.noConfusion hf
      · rw [severFriendships_other net uid hju] at hf
        revert hf
        split <;> rename_i hnb
        · intro hf
          cases hj : net.friendships j with
          | none => rw [hj] at hf; exact Option.noConfusion hf
          | some lj =>
            rw [hj] at hf
            simp only [Option.map_some'] at hf
            cases hf
            exact nodup_removeNat (h.fnodup j lj hj)
        · intro hf
          exact h.fnodup j l hf
    · -- noSelf
      intro j l hf
      by_cases hju : j = uid
      · rw [hju, severFriendships_self] at hf
        exact Option.noConfusion hf
      · rw [severFriendships_other net uid hju] at hf
        revert hf
        split <;> rename_i hnb
        · intro hf
          cases hj : net.friendships j with
          | none => rw [hj] at hf; exact Option.noConfusion hf
          | some lj =>
            rw [hj] at hf
            simp only [Option.map_some'] at hf
            cases hf
            intro hjin
            exact h.noSelf j lj hj (mem_removeNat.mp hjin).1
        · intro hf
          exact h.noSelf j l hf
    · -- idxSound
      intro n l hn
      by_cases hno : n = profile.name
      · rw [hno] at hn
        obtain ⟨hl, hlne⟩ := dropFromNameIndex_self net uid profile.name hn
        cases h0 : net.nameIndex profile.name with
        | none =>
          rw [h0] at hl
          simp [removeNat] at hl
          exact absurd hl hlne
        | some l0 =>
          rw [h0] at hl
          simp only [Option.getD_some] at hl
          refine ⟨hlne, by rw [hl]; exact nodup_removeNat (h.idxSound _ l0 h0).2.1, ?_⟩
          intro j hj
          rw [hl] at hj
          obtain ⟨hj0, hju⟩ := mem_removeNat.mp hj
          obtain ⟨q, hq, hqn⟩ := (h.idxSound _ l0 h0).2.2 j hj0
          exact ⟨q, by rw [upd_ne _ _ _ hju]; exact hq, by rw [hno]; exact hqn⟩
      · rw [dropFromNameIndex_other net uid profile.name hno] at hn
        obtain ⟨h1, h2, h3⟩ := h.idxSound n l hn
        refine ⟨h1, h2, fun j hj => ?_⟩
        obtain ⟨q, hq, hqn⟩ := h3 j hj
        have hju : j ≠ uid := fun hje =>
          uid_not_in_foreign_entry net h hp hn hno (hje ▸ hj)
        exact ⟨q, by rw [upd_ne _ _ _ hju]; exact hq, hqn⟩
    · -- idxComplete
      intro j q hq
      by_cases hju : j = uid
      · rw [hju, upd_same] at hq
        exact Option.noConfusion hq
      · rw [upd_ne _ _ _ hju] at hq
        obtain ⟨l, hl, hjl⟩ := h.idxComplete j q hq
        by_cases hqo : q.name = profile.name
        · rw [hqo] at hl
          have hmem : j ∈ removeNat uid l := mem_removeNat.mpr ⟨hjl, hju⟩
          have hne2 : removeNat uid l ≠ [] := by
            intro hnil
            rw [hnil] at hmem
            exact absurd hmem (List.not_mem_nil j)
          refine ⟨removeNat uid l, ?_, hmem⟩
          rw [hqo]
          exact dropFromNameIndex_some net uid profile.name hl hne2
        · refine ⟨l, ?_, hjl⟩
          rw [dropFromNameIndex_other net uid profile.name hqo]
          exact hl
    · -- setDistinct
      exact pairwise_setDiscard h.setDistinct
    · -- setLive
      intro m hm
      obtain ⟨hms, hmp⟩ := mem_setDiscard.mp hm
      obtain ⟨j, q, hq, he⟩ := h.setLive m hms
      have hju : j ≠ uid := by
        intro hje
        rw [hje, hp] at hq
        cases hq
        rw [he] at hmp
        exact Bool.noConfusion hmp
      exact ⟨j, q, by rw [upd_ne _ _ _ hju]; exact hq, he⟩
    · -- fresh
      intro j q hq
      by_cases hju : j = uid
      · rw [hju, upd_same] at hq
        exact Option.noConfusion hq
      · rw [upd_ne _ _ _ hju] at hq
        exact h.fresh j q hq

section EdgeEval

variable (net : Network) {id1 id2 j : Nat}

theorem addEdges_at2 (hne : id2 ≠ id1) :
    addEdges net id1 id2 id2 =
      some (insertNat id1 ((net.friendships id2).getD [])) := by
  unfold addEdges
  rw [upd_same, upd_ne _ _ _ hne]

theorem addEdges_at1 (hne : id1 ≠ id2) :
    addEdges net id1 id2 id1 =
      some (insertNat id2 ((net.friendships id1).getD [])) := by
  unfold addEdges
  rw [upd_ne _ _ _ hne, upd_same]

theorem addEdges_other (hj2 : j ≠ id2) (hj1 : j ≠ id1) :
    addEdges net id1 id2 j = net.friendships j := by
  unfold addEdges
  rw [upd_ne _ _ _ hj2, upd_ne _ _ _ hj1]

theorem removeEdges_at2 (hne : id2 ≠ id1) :
    removeEdges net id1 id2 id2 =
      some (removeNat id1 ((net.friendships id2).getD [])) := by
  unfold removeEdges
  rw [upd_same, upd_ne _ _ _ hne]

theorem removeEdges_at1 (hne : id1 ≠ id2) :
    removeEdges net id1 id2 id1 =
      some (removeNat id2 ((net.friendships id1).getD [])) := by
  unfold removeEdges
  rw [upd_ne _ _ _ hne, upd_same]

theorem removeEdges_other (hj2 : j ≠ id2) (hj1 : j ≠ id1) :
    removeEdges net id1 id2 j = net.friendships j := by
  unfold removeEdges
  rw [upd_ne _ _ _ hj2, upd_ne _ _ _ hj1]

end EdgeEval

/-- Invariant preservation for the edge-inserting step of `add_friendship`,
for two distinct live ids. -/
theorem inv_addEdges (net : Network) (id1 id2 : Nat) (p1 p2 : UserProfile)
    (h1 : net.profiles id1 = some p1) (h2 : net.profiles id2 = some p2)
    (hne : id1 ≠ id2) (h : Inv net) :
    Inv { net with friendships := addEdges net id1 id2 } := by
  obtain ⟨l1, hl1⟩ : ∃ l1, net.friendships id1 = some l1 := by
    cases hf : net.friendships id1 with
    | none => exact absurd ((h.domEq id1).mpr hf) (by rw [h1]; simp)
    | some l => exact ⟨l, rfl⟩
  obtain ⟨l2, hl2⟩ : ∃ l2, net.friendships id2 = some l2 := by
    cases hf : net.friendships id2 with
    | none => exact absurd ((h.domEq id2).mpr hf) (by rw [h2]; simp)
    | some l => exact ⟨l, rfl⟩
  have he1 : addEdges net id1 id2 id1 = some (insertNat id2 l1) := by
    rw [addEdges_at1 net hne, hl1]
    rfl
  have he2 : addEdges net id1 id2 id2 = some (insertNat id1 l2) := by
    rw [addEdges_at2 net (Ne.symm hne), hl2]
    rfl
  constructor <;> dsimp only
  · exact h.idCoh
  · -- domEq
    intro j
    by_cases hj2 : j = id2
    · rw [hj2, he2, h2]
      simp
    · by_cases hj1 : j = id1
      · rw [hj1, he1, h1]
        simp
      · rw [addEdges_other net hj2 hj1]
        exact h.domEq j
  · -- closed
    intro j l k hf hk
    by_cases hj2 : j = id2
    · rw [hj2, he2] at hf
      cases hf
      rcases mem_insertNat.mp hk with hk1 | hk2
      · rw [hk1, h1]
        simp
      · exact h.closed id2 l2 k hl2 hk2
    · by_cases hj1 : j = id1
      · rw [hj1, he1] at hf
        cases hf
        rcases mem_insertNat.mp hk with hk1 | hk2
        · rw [hk1, h2]
          simp
        · exact h.closed id1 l1 k hl1 hk2
      · rw [addEdges_other net hj2 hj1] at hf
        exact h.closed j l k hf hk
  · -- fsymm
    intro i li k hf hk
    by_cases hi2 : i = id2
    · rw [hi2, he2] at hf
      cases hf
      rcases mem_insertNat.mp hk with hk1 | hk2
      · exact ⟨insertNat id2 l1, by rw [hk1, he1],
          mem_insertNat.mpr (Or.inl hi2)⟩
      · obtain ⟨lk, hlk, hmem⟩ := h.fsymm id2 l2 k hl2 hk2
        by_cases hk2e : k = id2
        · refine ⟨insertNat id1 l2, by rw [hk2e, he2], ?_⟩
          rw [hk2e, hl2] at hlk
          cases hlk
          rw [hi2]
          exact mem_insertNat.mpr (Or.inr hmem)
        · by_cases hk1e : k = id1
          · refine ⟨insertNat id2 l1, by rw [hk1e, he1], ?_⟩
            rw [hk1e, hl1] at hlk
            cases hlk
            rw [hi2]
            exact mem_insertNat.mpr (Or.inr hmem)
          · refine ⟨lk, ?_, by rw [hi2]; exact hmem⟩
            rw [addEdges_other net hk2e hk1e]
            exact hlk
    · by_cases hi1 : i = id1
      · rw [hi1, he1] at hf
        cases hf
        rcases mem_insertNat.mp hk with hk1 | hk2
        · exact ⟨insertNat id1 l2, by rw [hk1, he2],
            mem_insertNat.mpr (Or.inl hi1)⟩
        · obtain ⟨lk, hlk, hmem⟩ := h.fsymm id1 l1 k hl1 hk2
          by_cases hk2e : k = id2
          · refine ⟨insertNat id1 l2, by rw [hk2e, he2], ?_⟩
            rw [hk2e, hl2] at hlk
            cases hlk
            rw [hi1]
            exact mem_insertNat.mpr (Or.inr hmem)
          · by_cases hk1e : k = id1
            · refine ⟨insertNat id2 l1, by rw [hk1e, he1], ?_⟩
              rw [hk1e, hl1] at hlk
              cases hlk
              rw [hi1]
              exact mem_insertNat.mpr (Or.inr hmem)
            · refine ⟨lk, ?_, by rw [hi1]; exact hmem⟩
              rw [addEdges_other net hk2e hk1e]
              exact hlk
      · rw [addEdges_other net hi2 hi1] at hf
        obtain ⟨lk, hlk, hmem⟩ := h.fsymm i li k hf hk
        by_cases hk2e : k = id2
        · refine ⟨insertNat id1 l2, by rw [hk2e, he2], ?_⟩
          rw [hk2e, hl2] at hlk
          cases hlk
          exact mem_insertNat.mpr (Or.inr hmem)
        · by_cases hk1e : k = id1
          · refine ⟨insertNat id2 l1, by rw [hk1e, he1], ?_⟩
            rw [hk1e, hl1] at hlk
            cases hlk
            exact mem_insertNat.mpr (Or.inr hmem)
          · refine ⟨lk, ?_, hmem⟩
            rw [addEdges_other net hk2e hk1e]
            exact hlk
  · -- fnodup
    intro j l hf
    by_cases hj2 : j = id2
    · rw [hj2, he2] at hf
      cases hf
      exact nodup_insertNat (h.fnodup id2 l2 hl2)
    · by_cases hj1 : j = id1
      · rw [hj1, he1] at hf
        cases hf
        exact nodup_insertNat (h.fnodup id1 l1 hl1)
      · rw [addEdges_other net hj2 hj1] at hf
        exact h.fnodup j l hf
  · -- noSelf
    intro j l hf
    by_cases hj2 : j = id2
    · rw [hj2, he2] at hf
      cases hf
      intro hin
      rcases mem_insertNat.mp hin with hx | hx
      · exact hne (hx ▸ hj2)
      · exact h.noSelf id2 l2 hl2 (hj2 ▸ hx)
    · by_cases hj1 : j = id1
      · rw [hj1, he1] at hf
        cases hf
        intro hin
        rcases mem_insertNat.mp hin with hx | hx
        · exact hne (hj1 ▸ hx)
        · exact h.noSelf id1 l1 hl1 (hj1 ▸ hx)
      · rw [addEdges_other net hj2 hj1] at hf
        exact h.noSelf j l hf
  · exact h.idxSound
  · exact h.idxComplete
  · exact h.setDistinct
  · exact h.setLive
  · exact h.fresh

/-- Theorem that `add_friendship`, called with two live stored profiles, preserves all
structural invariants. -/
theorem inv_add_friendship (net : Network) (id1 id2 : Nat)
    (p1 p2 : UserProfile)
    (h1 : net.profiles id1 = some p1) (h2 : net.profiles id2 = some p2)
    (h : Inv net) : Inv (add_friendship net p1 p2).1 := by
  have hu1 : p1.userId = some id1 := h.idCoh _ _ h1
  have hu2 : p2.userId = some id2 := h.idCoh _ _ h2
  unfold add_friendship
  by_cases hc1 : inSet net.profileSet p1 ∧ inSet net.profileSet p2
  · rw [if_neg (not_not_intro hc1)]
    by_cases hc2 : eqData p1 p2 = true
    · rw [if_pos hc2]
      exact h
    · rw [if_neg hc2]
      simp only [hu1, hu2]
      by_cases hc3 : id2 ∈ (net.friendships id1).getD []
      · rw [if_pos hc3]
        exact h
      · rw [if_neg hc3]
        have hne : id1 ≠ id2 := by
          intro he
          rw [he, h2] at h1
          cases h1
          exact hc2 (eqData_refl p1)
        exact inv_addEdges net id1 id2 p1 p2 h1 h2 hne h
  · rw [if_pos hc1]
    exact h

/-- Invariant preservation for the edge-removing step of `remove_friendship`,
for two distinct live ids. -/
theorem inv_removeEdges (net : Network) (id1 id2 : Nat) (p1 p2 : UserProfile)
    (h1 : net.profiles id1 = some p1) (h2 : net.profiles id2 = some p2)
    (hne : id1 ≠ id2) (h : Inv net) :
    Inv { net with friendships := removeEdges net id1 id2 } := by
  obtain ⟨l1, hl1⟩ : ∃ l1, net.friendships id1 = some l1 := by
    cases hf : net.friendships id1 with
    | none => exact absurd ((h.domEq id1).mpr hf) (by rw [h1]; simp)
    | some l => exact ⟨l, rfl⟩
  obtain ⟨l2, hl2⟩ : ∃ l2, net.friendships id2 = some l2 := by
    cases hf : net.friendships id2 with
    | none => exact absurd ((h.domEq id2).mpr hf) (by rw [h2]; simp)
    | some l => exact ⟨l, rfl⟩
  have he1 : removeEdges net id1 id2 id1 = some (removeNat id2 l1) := by
    rw [removeEdges_at1 net hne, hl1]
    rfl
  have he2 : removeEdges net id1 id2 id2 = some (removeNat id1 l2) := by
    rw [removeEdges_at2 net (Ne.symm hne), hl2]
    rfl
  constructor <;> dsimp only
  · exact h.idCoh
  · -- domEq
    intro j
    by_cases hj2 : j = id2
    · rw [hj2, he2, h2]
      simp
    · by_cases hj1 : j = id1
      · rw [hj1, he1, h1]
        simp
      · rw [removeEdges_other net hj2 hj1]
        exact h.domEq j
  · -- closed
    intro j l k hf hk
    by_cases hj2 : j = id2
    · rw [hj2, he2] at hf
      cases hf
      exact h.closed id2 l2 k hl2 (mem_removeNat.mp hk).1
    · by_cases hj1 : j = id1
      · rw [hj1, he1] at hf
        cases hf
        exact h.closed id1 l1 k hl1 (mem_removeNat.mp hk).1
      · rw [removeEdges_other net hj2 hj1] at hf
        exact h.closed j l k hf hk
  · -- fsymm
    intro i li k hf hk
    by_cases hi2 : i = id2
    · rw [hi2, he2] at hf
      cases hf
      obtain ⟨hk0, hkne⟩ := mem_removeNat.mp hk
      obtain ⟨lk, hlk, hmem⟩ := h.fsymm id2 l2 k hl2 hk0
      have hk2e : k ≠ id2 := by
        intro he
        exact h.noSelf id2 l2 hl2 (he ▸ hk0)
      exact ⟨lk, by rw [removeEdges_other net hk2e hkne]; exact hlk,
        by rw [hi2]; exact hmem⟩
    · by_cases hi1 : i = id1
      · rw [hi1, he1] at hf
        cases hf
        obtain ⟨hk0, hkne⟩ := mem_removeNat.mp hk
        obtain ⟨lk, hlk, hmem⟩ := h.fsymm id1 l1 k hl1 hk0
        have hk1e : k ≠ id1 := by
          intro he
          exact h.noSelf id1 l1 hl1 (he ▸ hk0)
        exact ⟨lk, by rw [removeEdges_other net hkne hk1e]; exact hlk,
          by rw [hi1]; exact hmem⟩
      · rw [removeEdges_other net hi2 hi1] at hf
        obtain ⟨lk, hlk, hmem⟩ := h.fsymm i li k hf hk
        by_cases hk2e : k = id2
        · refine ⟨removeNat id1 l2, by rw [hk2e, he2], ?_⟩
          rw [hk2e, hl2] at hlk
          cases hlk
          exact mem_removeNat.mpr ⟨hmem, hi1⟩
        · by_cases hk1e : k = id1
          · refine ⟨removeNat id2 l1, by rw [hk1e, he1], ?_⟩
            rw [hk1e, hl1] at hlk
            cases hlk
            exact mem_removeNat.mpr ⟨hmem, hi2⟩
          · refine ⟨lk, ?_, hmem⟩
            rw [removeEdges_other net hk2e hk1e]
            exact hlk
  · -- fnodup
    intro j l hf
    by_cases hj2 : j = id2
    · rw [hj2, he2] at hf
      cases hf
      exact nodup_removeNat (h.fnodup id2 l2 hl2)
    · by_cases hj1 : j = id1
      · rw [hj1, he1] at hf
        cases hf
        exact nodup_removeNat (h.fnodup id1 l1 hl1)
      · rw [removeEdges_other net hj2 hj1] at hf
        exact h.fnodup j l hf
  · -- noSelf
    intro j l hf
    by_cases hj2 : j = id2
    · rw [hj2, he2] at hf
      cases hf
      intro hin
      exact h.noSelf id2 l2 hl2 (hj2 ▸ (mem_removeNat.mp hin).1)
    · by_cases hj1 : j = id1
      · rw [hj1, he1] at hf
        cases hf
        intro hin
        exact h.noSelf id1 l1 hl1 (hj1 ▸ (mem_removeNat.mp hin).1)
      · rw [removeEdges_other net hj2 hj1] at hf
        exact h.noSelf j l hf
  · exact h.idxSound
  · exact h.idxComplete
  · exact h.setDistinct
  · exact h.setLive
  · exact h.fresh

/-- Theorem that `remove_friendship`, called with two live stored profiles, preserves all
structural invariants. -/
theorem inv_remove_friendship (net : Network) (id1 id2 : Nat)
    (p1 p2 : UserProfile)
    (h1 : net.profiles id1 = some p1) (h2 : net.profiles id2 = some p2)
    (h : Inv net) : Inv (remove_friendship net p1 p2).1 := by
  have hu1 : p1.userId = some id1 := h.idCoh _ _ h1
  have hu2 : p2.userId = some id2 := h.idCoh _ _ h2
  unfold remove_friendship
  simp only [hu1, hu2]
  have hlive : net.profiles id1 ≠ none ∧ net.profiles id2 ≠ none := by
    rw [h1, h2]
    simp
  rw [if_neg (not_not_intro hlive)]
  by_cases hc : id2 ∈ (net.friendships id1).getD []
  · rw [if_neg (not_not_intro hc)]
    have hne : id1 ≠ id2 := by
      intro he
      cases hfr : net.friendships id1 with
      | none => rw [hfr] at hc; simp at hc
      | some l1 =>
        rw [hfr] at hc
        simp only [Option.getD_some] at hc
        exact h.noSelf id1 l1 hfr (he ▸ hc)
    exact inv_removeEdges net id1 id2 p1 p2 h1 h2 hne h
  · rw [if_pos hc]
    exact h

/-- Every public operation preserves the structural invariants. -/
theorem inv_applyOp (net : Network) (op : Op) (h : Inv net) :
    Inv (applyOp net op) := by
  cases op with
  | addProfile nm em ph => exact inv_add_profile net nm em ph h
  | updateProfile uid nn ne np => exact inv_update_profile net uid nn ne np h
  | removeProfile uid => exact inv_remove_profile net uid h
  | addFriendship id1 id2 =>
    dsimp only [applyOp]
    cases h1 : net.profiles id1 with
    | none =>
      cases h2 : net.profiles id2 with
      | none => exact h
      | some p2 => exact h
    | some p1 =>
      cases h2 : net.profiles id2 with
      | none => exact h
      | some p2 => exact inv_add_friendship net id1 id2 p1 p2 h1 h2 h
  | removeFriendship id1 id2 =>
    dsimp only [applyOp]
    cases h1 : net.profiles id1 with
    | none =>
      cases h2 : net.profiles id2 with
      | none => exact h
      | some p2 => exact h
    | some p1 =>
      cases h2 : net.profiles id2 with
      | none => exact h
      | some p2 => exact inv_remove_friendship net id1 id2 p1 p2 h1 h2 h

theorem inv_foldl (ops : List Op) :
    ∀ net : Network, Inv net → Inv (ops.foldl applyOp net) := by
  induction ops with
  | nil => exact fun _ h => h
  | cons op ops ih =>
    intro net h
    exact ih _ (inv_applyOp net op h)

/-- Every reachable state satisfies all structural invariants. -/
theorem inv_reachable {net : Network} (h : Reachable net) : Inv net := by
  obtain ⟨ops, rfl⟩ := h
  exact inv_foldl ops Network.empty inv_empty

section SortLemmas

variable {α : Type} (le : α → α → Bool)

theorem perm_insertSorted (a : α) (l : List α) :
    (insertSorted le a l).Perm (a :: l) := by
  induction l with
  | nil => exact List.Perm.refl _
  | cons b l ih =>
    unfold insertSorted
    split
    · exact List.Perm.refl _
    · exact (List.Perm.cons b ih).trans (List.Perm.swap a b l)

theorem perm_sortBy (l : List α) : (sortBy le l).Perm l := by
  induction l with
  | nil => exact List.Perm.refl _
  | cons a l ih =>
    exact (perm_insertSorted le a (sortBy le l)).trans (List.Perm.cons a ih)

theorem mem_sortBy {x : α} {l : List α} : x ∈ sortBy le l ↔ x ∈ l :=
  (perm_sortBy le l).mem_iff

theorem pairwise_insertSorted
    (htot : ∀ a b, le a b = true ∨ le b a = true)
    (htr : ∀ a b c, le a b = true → le b c = true → le a c = true)
    (a : α) {l : List α} (h : l.Pairwise (fun x y => le x y = true)) :
    (insertSorted le a l).Pairwise (fun x y => le x y = true) := by
  induction l with
  | nil => exact List.pairwise_singleton _ a
  | cons b l ih =>
    obtain ⟨hb, hl⟩ := List.pairwise_cons.mp h
    unfold insertSorted
    split <;> rename_i hab
    · refine List.pairwise_cons.mpr ⟨?_, h⟩
      intro c hc
      rcases List.mem_cons.mp hc with hcb | hcl
      · rw [hcb]
        exact hab
      · exact htr a b c hab (hb c hcl)
    · refine List.pairwise_cons.mpr ⟨?_, ih hl⟩
      intro c hc
      rcases List.mem_cons.mp ((perm_insertSorted le a l).mem_iff.mp hc) with
        hca | hcl
      · rw [hca]
        rcases htot a b with hx | hx
        · exact absurd hx hab
        · exact hx
      · exact hb c hcl

theorem pairwise_sortBy
    (htot : ∀ a b, le a b = true ∨ le b a = true)
    (htr : ∀ a b c, le a b = true → le b c = true → le a c = true)
    (l : List α) :
    (sortBy le l).Pairwise (fun x y => le x y = true) := by
  induction l with
  | nil => exact List.Pairwise.nil
  | cons a l ih => exact pairwise_insertSorted le htot htr a ih

theorem nodup_sortBy {l : List α} (h : l.Nodup) : (sortBy le l).Nodup :=
  (perm_sortBy le l).nodup_iff.mpr h

end SortLemmas

section ScoreLemmas

/-- The mutual-friend count of candidate `c` for a querying profile with
direct-friend set `D`: the number of direct friends whose adjacency set holds
`c`. -/
def mutualCount (net : Network) (D : List Nat) (c : Nat) : Nat :=
  (D.filter (fun f => decide (c ∈ friendsOf net f))).length

theorem bump_eval_pos (scores : List (Nat × Nat)) (c0 : Nat)
    (h : (scores.any (fun e => e.1 == c0)) = true) :
    bump scores c0 =
      scores.map (fun e => if e.1 == c0 then (e.1, e.2 + 1) else e) := by
  unfold bump
  rw [if_pos h]

theorem bump_eval_neg (scores : List (Nat × Nat)) (c0 : Nat)
    (h : (scores.any (fun e => e.1 == c0)) = false) :
    bump scores c0 = scores ++ [(c0, 1)] := by
  unfold bump
  rw [h]
  simp

theorem foldl_bump_char (l : List Nat) :
    ((l.foldl bump []).map Prod.fst).Nodup ∧
    (∀ c, c ∈ (l.foldl bump []).map Prod.fst ↔ c ∈ l) ∧
    (∀ c s, (c, s) ∈ l.foldl bump [] ↔ c ∈ l ∧ s = l.count c) := by
  induction l using List.reverseRecOn with
  | nil => simp
  | append_singleton l c0 ih =>
    obtain ⟨hnd, hkey, hms⟩ := ih
    rw [List.foldl_append, List.foldl_cons, List.foldl_nil]
    by_cases hin : c0 ∈ l
    · have hany : ((l.foldl bump []).any (fun e => e.1 == c0)) = true := by
        rw [List.any_eq_true]
        obtain ⟨e, he, hfst⟩ := List.mem_map.mp ((hkey c0).mpr hin)
        exact ⟨e, he, by rw [beq_iff_eq]; exact hfst⟩
      rw [bump_eval_pos _ _ hany]
      have hmap : ((l.foldl bump []).map
            (fun e => if e.1 == c0 then (e.1, e.2 + 1) else e)).map Prod.fst =
          (l.foldl bump []).map Prod.fst := by
        rw [List.map_map]
        refine List.map_congr_left ?_
        intro e _
        dsimp only [Function.comp]
        split <;> rfl
      refine ⟨by rw [hmap]; exact hnd, ?_, ?_⟩
      · intro c
        rw [hmap, hkey]
        simp only [List.mem_append, List.mem_singleton]
        constructor
        · exact fun hx => Or.inl hx
        · rintro (hx | hx)
          · exact hx
          · rw [hx]
            exact hin
      · intro c s
        rw [List.mem_map]
        constructor
        · rintro ⟨⟨ce, se⟩, hmem, heq⟩
          obtain ⟨hcl, hse⟩ := (hms ce se).mp hmem
          by_cases hc : ce = c0
          · rw [if_pos (by rw [beq_iff_eq]; exact hc)] at heq
            rw [Prod.mk.injEq] at heq
            obtain ⟨h1, h2⟩ := heq
            dsimp only at h1 h2
            subst h1
            subst hc
            refine ⟨by simp [hcl], ?_⟩
            rw [← h2, hse, List.count_append]
            simp
          · rw [if_neg (by rw [beq_iff_eq]; exact hc)] at heq
            rw [Prod.mk.injEq] at heq
            obtain ⟨h1, h2⟩ := heq
            subst h1
            subst h2
            refine ⟨by simp [hcl], ?_⟩
            rw [hse, List.count_append]
            simp [List.count_singleton, hc]
        · rintro ⟨hcm, hs⟩
          by_cases hc : c = c0
          · subst hc
            refine ⟨(c, l.count c), (hms c (l.count c)).mpr ⟨hin, rfl⟩, ?_⟩
            rw [if_pos (by rw [beq_iff_eq])]
            rw [hs, List.count_append]
            simp
          · have hcl : c ∈ l := by
              rcases List.mem_append.mp hcm with hx | hx
              · exact hx
              · rw [List.mem_singleton] at hx
                exact absurd hx hc
            refine ⟨(c, l.count c), (hms c (l.count c)).mpr ⟨hcl, rfl⟩, ?_⟩
            rw [if_neg (by rw [beq_iff_eq]; exact hc)]
            rw [hs, List.count_append]
            simp [List.count_singleton, hc]
    · have hany : ((l.foldl bump []).any (fun e => e.1 == c0)) = false := by
        rw [Bool.eq_false_iff]
        intro hx
        rw [List.any_eq_true] at hx
        obtain ⟨e, he, heq⟩ := hx
        rw [beq_iff_eq] at heq
        exact hin ((hkey c0).mp (List.mem_map.mpr ⟨e, he, heq⟩))
      rw [bump_eval_neg _ _ hany]
      refine ⟨?_, ?_, ?_⟩
      · rw [List.map_append]
        rw [List.nodup_append]
        refine ⟨hnd, List.nodup_singleton c0, ?_⟩
        intro x hx hx2
        simp only [List.map_cons, List.map_nil, List.mem_singleton] at hx2
        rw [hx2] at hx
        exact hin ((hkey c0).mp hx)
      · intro c
        rw [List.map_append]
        simp only [List.mem_append, List.map_cons, List.map_nil,
          List.mem_singleton, hkey]
      · intro c s
        simp only [List.mem_append, List.mem_singleton, Prod.mk.injEq]
        constructor
        · rintro (hx | ⟨hx1, hx2⟩)
          · obtain ⟨hcl, hse⟩ := (hms c s).mp hx
            have hc : c ≠ c0 := by
              intro he
              rw [he] at hcl
              exact hin hcl
            refine ⟨by simp [hcl], ?_⟩
            rw [hse, List.count_append]
            simp [List.count_singleton, hc]
          · subst hx1
            refine ⟨by simp, ?_⟩
            rw [hx2, List.count_append]
            have hz : l.count c = 0 := List.count_eq_zero.mpr hin
            simp [hz]
        · rintro ⟨hcm, hs⟩
          by_cases hc : c = c0
          · subst hc
            right
            refine ⟨rfl, ?_⟩
            rw [hs, List.count_append]
            have hz : l.count c = 0 := List.count_eq_zero.mpr hin
            simp [hz]
          · left
            have hcl : c ∈ l := by
              rcases hcm with hx | hx
              · exact hx
              · exact absurd hx hc
            refine (hms c s).mpr ⟨hcl, ?_⟩
            rw [hs, List.count_append]
            simp [List.count_singleton, hc]

theorem mem_suggestContribs {net : Network} {uid : Nat} {D : List Nat}
    {c : Nat} :
    c ∈ suggestContribs net uid D ↔
      c ≠ uid ∧ c ∉ D ∧ ∃ f ∈ D, c ∈ friendsOf net f := by
  unfold suggestContribs
  rw [List.mem_flatMap]
  constructor
  · rintro ⟨f, hf, hc⟩
    rw [List.mem_filter] at hc
    obtain ⟨hc1, hc2⟩ := hc
    rw [Bool.and_eq_true, decide_eq_true_eq, decide_eq_true_eq] at hc2
    exact ⟨hc2.1, hc2.2, f, hf, hc1⟩
  · rintro ⟨h1, h2, f, hf, hc⟩
    refine ⟨f, hf, ?_⟩
    rw [List.mem_filter]
    refine ⟨hc, ?_⟩
    rw [Bool.and_eq_true, decide_eq_true_eq, decide_eq_true_eq]
    exact ⟨h1, h2⟩

theorem sum_map_ite_length (D : List Nat) (g : Nat → Bool) :
    (D.map (fun f => if g f then 1 else 0)).sum =
      (D.filter g).length := by
  induction D with
  | nil => rfl
  | cons a D ih =>
    rw [List.map_cons, List.sum_cons, List.filter_cons]
    by_cases hg : g a = true
    · rw [if_pos hg, if_pos hg, List.length_cons, ih]
      omega
    · rw [if_neg hg, if_neg hg, ih]
      omega

theorem count_suggestContribs (net : Network)
    (hnodup : ∀ f l, net.friendships f = some l → l.Nodup)
    {uid : Nat} {D : List Nat} {c : Nat} (hc : c ≠ uid) (hcD : c ∉ D) :
    (suggestContribs net uid D).count c = mutualCount net D c := by
  unfold suggestContribs mutualCount
  rw [List.count_flatMap]
  have hpt : ∀ f : Nat,
      (List.count c ∘ fun fid =>
        ((net.friendships fid).getD []).filter
          (fun x => decide (x ≠ uid) && decide (x ∉ D))) f =
      (fun f => if decide (c ∈ friendsOf net f) = true then 1 else 0) f := by
    intro f
    dsimp only [Function.comp]
    have hnd : (friendsOf net f).Nodup := by
      unfold friendsOf
      cases hf : net.friendships f with
      | none => exact List.nodup_nil
      | some l =>
        simp only [Option.getD_some]
        exact hnodup f l hf
    have hcnt : List.count c (((net.friendships f).getD []).filter
        (fun x => decide (x ≠ uid) && decide (x ∉ D))) =
        List.count c ((net.friendships f).getD []) :=
      List.count_filter (by
        rw [Bool.and_eq_true, decide_eq_true_eq, decide_eq_true_eq]
        exact ⟨hc, hcD⟩)
    rw [hcnt]
    by_cases hmem : c ∈ friendsOf net f
    · rw [if_pos (decide_eq_true hmem)]
      exact List.count_eq_one_of_mem hnd hmem
    · rw [if_neg (by rw [decide_eq_true_eq]; exact hmem)]
      exact List.count_eq_zero.mpr hmem
  rw [List.map_congr_left (fun f _ => hpt f)]
  exact sum_map_ite_length D _

/-- Full characterisation of the score dict of `suggest_friends`. -/
theorem mem_suggestScores (net : Network)
    (hnodup : ∀ f l, net.friendships f = some l → l.Nodup)
    (uid : Nat) (D : List Nat) (c s : Nat) :
    (c, s) ∈ suggestScores net uid D ↔
      c ≠ uid ∧ c ∉ D ∧ (∃ f ∈ D, c ∈ friendsOf net f) ∧
        s = mutualCount net D c := by
  unfold suggestScores
  rw [(foldl_bump_char (suggestContribs net uid D)).2.2 c s]
  constructor
  · rintro ⟨hm, hs⟩
    obtain ⟨h1, h2, h3⟩ := mem_suggestContribs.mp hm
    exact ⟨h1, h2, h3, by rw [hs, count_suggestContribs net hnodup h1 h2]⟩
  · rintro ⟨h1, h2, h3, hs⟩
    refine ⟨mem_suggestContribs.mpr ⟨h1, h2, h3⟩, ?_⟩
    rw [hs, count_suggestContribs net hnodup h1 h2]

theorem suggestScores_keys_nodup (net : Network) (uid : Nat) (D : List Nat) :
    ((suggestScores net uid D).map Prod.fst).Nodup :=
  (foldl_bump_char (suggestContribs net uid D)).1

theorem suggestKeyLe_iff (net : Network) (a b : Nat × Nat) :
    suggestKeyLe net a b = true ↔
      b.2 < a.2 ∨ (a.2 = b.2 ∧ nameOf net a.1 ≤ nameOf net b.1) := by
  unfold suggestKeyLe
  rw [Bool.or_eq_true, Bool.and_eq_true]
  rw [decide_eq_true_eq, decide_eq_true_eq, beq_iff_eq]

theorem suggestKeyLe_total (net : Network) (a b : Nat × Nat) :
    suggestKeyLe net a b = true ∨ suggestKeyLe net b a = true := by
  rw [suggestKeyLe_iff, suggestKeyLe_iff]
  rcases Nat.lt_trichotomy a.2 b.2 with hx | hx | hx
  · exact Or.inr (Or.inl hx)
  · rcases le_total (nameOf net a.1) (nameOf net b.1) with hy | hy
    · exact Or.inl (Or.inr ⟨hx, hy⟩)
    · exact Or.inr (Or.inr ⟨hx.symm, hy⟩)
  · exact Or.inl (Or.inl hx)

theorem suggestKeyLe_trans (net : Network) (a b c : Nat × Nat)
    (hab : suggestKeyLe net a b = true) (hbc : suggestKeyLe net b c = true) :
    suggestKeyLe net a c = true := by
  rw [suggestKeyLe_iff] at hab hbc ⊢
  rcases hab with hab | ⟨hab1, hab2⟩
  · rcases hbc with hbc | ⟨hbc1, hbc2⟩
    · exact Or.inl (hbc.trans hab)
    · exact Or.inl (hbc1 ▸ hab)
  · rcases hbc with hbc | ⟨hbc1, hbc2⟩
    · exact Or.inl (hab1 ▸ hbc)
    · exact Or.inr ⟨hab1.trans hbc1, hab2.trans hbc2⟩

theorem mem_suggestSorted (net : Network)
    (hnodup : ∀ f l, net.friendships f = some l → l.Nodup)
    (uid : Nat) (D : List Nat) (c s : Nat) :
    (c, s) ∈ suggestSorted net uid D ↔
      c ≠ uid ∧ c ∉ D ∧ (∃ f ∈ D, c ∈ friendsOf net f) ∧
        s = mutualCount net D c := by
  unfold suggestSorted
  rw [mem_sortBy]
  exact mem_suggestScores net hnodup uid D c s

theorem pairwise_suggestSorted (net : Network) (uid : Nat) (D : List Nat) :
    (suggestSorted net uid D).Pairwise
      (fun a b => suggestKeyLe net a b = true) :=
  pairwise_sortBy _ (suggestKeyLe_total net) (suggestKeyLe_trans net) _

theorem suggestSorted_keys_nodup (net : Network) (uid : Nat) (D : List Nat) :
    ((suggestSorted net uid D).map Prod.fst).Nodup := by
  have hperm : ((suggestSorted net uid D).map Prod.fst).Perm
      ((suggestScores net uid D).map Prod.fst) :=
    (perm_sortBy (suggestKeyLe net) (suggestScores net uid D)).map Prod.fst
  exact hperm.nodup_iff.mpr (suggestScores_keys_nodup net uid D)

end ScoreLemmas

section ClaimSupport

theorem mem_friendsOf {net : Network} {i j : Nat} :
    j ∈ friendsOf net i ↔ ∃ li, net.friendships i = some li ∧ j ∈ li := by
  unfold friendsOf
  cases hi : net.friendships i with
  | none => simp
  | some li => simp

theorem friendsOf_symm_of_inv {net : Network} (h : Inv net) {i j : Nat}
    (hj : j ∈ friendsOf net i) : i ∈ friendsOf net j := by
  obtain ⟨li, hi, hmem⟩ := mem_friendsOf.mp hj
  obtain ⟨lj, hlj, hmem2⟩ := h.fsymm i li j hi hmem
  exact mem_friendsOf.mpr ⟨lj, hlj, hmem2⟩

/-- The half of the duplicate-set invariant claimed by the specification that
fails on the code: every live profile has a data-equal representative in the
duplicate-detection set. -/
def DupSetComplete (net : Network) : Prop :=
  ∀ uid p, net.profiles uid = some p → ∃ m ∈ net.profileSet, eqData p m = true

/-- An operation sequence on which `DupSetComplete` breaks: `update_profile`
makes profile 2 data-equal to profile 1 (the duplicate set keeps only one
representative), then removing profile 1 discards that shared representative,
leaving live profile 2 unrepresented. -/
def collideOps : List Op :=
  [.addProfile "x" "" "", .addProfile "y" "" "",
   .updateProfile 2 (some "x") none none, .removeProfile 1]

/-- Sequence `collideOps` followed by the creation of a third, distinct profile; used
to drive `add_friendship` between two live profiles into its unknown-profile
branch. -/
def collideOps3 : List Op :=
  [.addProfile "x" "" "", .addProfile "y" "" "", .addProfile "z" "" "",
   .updateProfile 2 (some "x") none none, .removeProfile 1]

/-- The specification's running scenario: Alex(1), Bella(2), Carlos(3),
Diana(4) with friendships (1,2), (1,3), (2,4), (3,4). -/
def demoOps : List Op :=
  [.addProfile "Alex" "a" "", .addProfile "Bella" "b" "",
   .addProfile "Carlos" "c" "", .addProfile "Diana" "d" "",
   .addFriendship 1 2, .addFriendship 1 3,
   .addFriendship 2 4, .addFriendship 3 4]

end ClaimSupport

/-- C1, counterexample: in the reachable state produced by `collideOps`,
profile 2 is live with data ("x","",""), yet the duplicate-detection set is
empty, so the live data-equal class of profile 2 has no representative. -/
theorem C1_counterexample :
    ¬ (∀ net, Reachable net → DupSetComplete net) := by
  intro hall
  have h2 : (run collideOps).profiles 2 = some ⟨"x", "", "", some 2⟩ := by
    decide
  obtain ⟨m, hm, _⟩ :=
    hall (run collideOps) ⟨collideOps, rfl⟩ 2 ⟨"x", "", "", some 2⟩ h2
  have hempty : (run collideOps).profileSet = [] := by decide
  rw [hempty] at hm
  exact absurd hm (List.not_mem_nil m)

/-- C1, amended: in every reachable state the duplicate-detection set never
holds two data-equal members (at most one representative per class), and
every member is data-equal to some live profile (no stale entries); the
claimed converse — that every live profile has a representative — is false
after an update collision followed by a removal. -/
theorem C1_amended_theorem (net : Network) (hr : Reachable net) :
    net.profileSet.Pairwise (fun a b => eqData a b = false) ∧
    ∀ m ∈ net.profileSet, ∃ uid p, net.profiles uid = some p ∧
      eqData m p = true := by
  have h := inv_reachable hr
  exact ⟨h.setDistinct, h.setLive⟩

/-- Witness for C1's amended theorem at the state reached by `collideOps3`. -/
theorem C1_witness :
    (run collideOps3).profileSet.Pairwise (fun a b => eqData a b = false) ∧
    ∀ m ∈ (run collideOps3).profileSet, ∃ uid p,
      (run collideOps3).profiles uid = some p ∧ eqData m p = true :=
  C1_amended_theorem (run collideOps3) ⟨collideOps3, rfl⟩

/-- C2: adjacency symmetry holds in every reachable state. -/
theorem C2_theorem (net : Network) (hr : Reachable net) (i j : Nat) :
    j ∈ friendsOf net i ↔ i ∈ friendsOf net j := by
  have h := inv_reachable hr
  exact ⟨friendsOf_symm_of_inv h, friendsOf_symm_of_inv h⟩

/-- Witness for C2 at the state reached by `demoOps`. -/
theorem C2_witness :
    2 ∈ friendsOf (run demoOps) 1 ↔ 1 ∈ friendsOf (run demoOps) 2 :=
  C2_theorem (run demoOps) ⟨demoOps, rfl⟩ 1 2

/-- C3, counterexample: in the reachable state produced by `collideOps3`,
ids 2 and 3 are both live, yet `add_friendship` on their stored profiles
fails with the unknown-profile error — the validation tests data-membership in
the duplicate set, not liveness, so "fails with UnknownProfile iff either id
is not a live profile" is false. -/
theorem C3_counterexample :
    (run collideOps3).profiles 2 = some ⟨"x", "", "", some 2⟩ ∧
    (run collideOps3).profiles 3 = some ⟨"z", "", "", some 3⟩ ∧
    (add_friendship (run collideOps3) ⟨"x", "", "", some 2⟩
      ⟨"z", "", "", some 3⟩).2 = .unknownProfile := by
  refine ⟨by decide, by decide, by decide⟩

/-- C3, amended: for live stored profiles, `add_friendship` fails with
UnknownProfile iff either profile's data lacks a representative in the
duplicate-detection set (liveness alone does not suffice), fails with
SelfFriendship iff the two profiles are data-equal (even when the ids
differ), fails with AlreadyFriends iff the edge already exists; otherwise it
succeeds and inserts both directed entries; every failure leaves the state
unchanged. -/
theorem C3_amended_theorem (net : Network) (hr : Reachable net)
    (id1 id2 : Nat) (p1 p2 : UserProfile)
    (h1 : net.profiles id1 = some p1) (h2 : net.profiles id2 = some p2) :
    ((add_friendship net p1 p2).2 = .unknownProfile ↔
      ¬ (inSet net.profileSet p1 = true ∧ inSet net.profileSet p2 = true)) ∧
    ((add_friendship net p1 p2).2 = .selfFriendship ↔
      (inSet net.profileSet p1 = true ∧ inSet net.profileSet p2 = true) ∧
        eqData p1 p2 = true) ∧
    ((add_friendship net p1 p2).2 = .alreadyFriends ↔
      (inSet net.profileSet p1 = true ∧ inSet net.profileSet p2 = true) ∧
        ¬ eqData p1 p2 = true ∧ id2 ∈ friendsOf net id1) ∧
    ((add_friendship net p1 p2).2 = .ok ↔
      (inSet net.profileSet p1 = true ∧ inSet net.profileSet p2 = true) ∧
        ¬ eqData p1 p2 = true ∧ id2 ∉ friendsOf net id1) ∧
    ((add_friendship net p1 p2).2 = .ok →
      id2 ∈ friendsOf (add_friendship net p1 p2).1 id1 ∧
      id1 ∈ friendsOf (add_friendship net p1 p2).1 id2) ∧
    ((add_friendship net p1 p2).2 ≠ .ok → (add_friendship net p1 p2).1 = net) := by
  have h := inv_reachable hr
  have hu1 : p1.userId = some id1 := h.idCoh _ _ h1
  have hu2 : p2.userId = some id2 := h.idCoh _ _ h2
  by_cases hc1 : inSet net.profileSet p1 = true ∧ inSet net.profileSet p2 = true
  · by_cases hc2 : eqData p1 p2 = true
    · have hres : add_friendship net p1 p2 = (net, .selfFriendship) := by
        unfold add_friendship
        rw [if_neg (not_not_intro hc1), if_pos hc2]
      rw [hres]
      exact ⟨by simp [hc1], by simp [hc1, hc2], by simp [hc2],
        by simp [hc2], by simp, fun _ => rfl⟩
    · by_cases hc3 : id2 ∈ friendsOf net id1
      · have hres : add_friendship net p1 p2 = (net, .alreadyFriends) := by
          unfold add_friendship
          rw [if_neg (not_not_intro hc1), if_neg hc2]
          simp only [hu1, hu2]
          rw [if_pos (show id2 ∈ (net.friendships id1).getD [] from hc3)]
        rw [hres]
        exact ⟨by simp [hc1], by simp [hc2], by simp [hc1, hc2, hc3],
          by simp [hc3], by simp, fun _ => rfl⟩
      · have hne : id1 ≠ id2 := by
          intro he
          rw [he, h2] at h1
          cases h1
          exact hc2 (eqData_refl p1)
        have hres : add_friendship net p1 p2 =
            ({ net with friendships := addEdges net id1 id2 }, .ok) := by
          unfold add_friendship
          rw [if_neg (not_not_intro hc1), if_neg hc2]
          simp only [hu1, hu2]
          rw [if_neg (show ¬ id2 ∈ (net.friendships id1).getD [] from hc3)]
        rw [hres]
        refine ⟨by simp [hc1], by simp [hc2], by simp [hc3],
          by simp [hc1, hc2, hc3], ?_, by simp⟩
        intro _
        constructor
        · refine mem_friendsOf.mpr ⟨insertNat id2 ((net.friendships id1).getD []),
            addEdges_at1 net hne, mem_insertNat.mpr (Or.inl rfl)⟩
        · refine mem_friendsOf.mpr ⟨insertNat id1 ((net.friendships id2).getD []),
            addEdges_at2 net (Ne.symm hne), mem_insertNat.mpr (Or.inl rfl)⟩
  · have hres : add_friendship net p1 p2 = (net, .unknownProfile) := by
      unfold add_friendship
      rw [if_pos hc1]
    rw [hres]
    exact ⟨by simp [hc1], by simp [hc1], by simp [hc1], by simp [hc1],
      by simp, fun _ => rfl⟩

/-- Witness for C3's amended theorem: in the `demoOps` state, ids 1 and 4 are
live, not yet friends, and their friendship call succeeds with both entries
inserted. -/
theorem C3_witness :
    ((add_friendship (run demoOps) ⟨"Alex", "a", "", some 1⟩
        ⟨"Diana", "d", "", some 4⟩).2 = .unknownProfile ↔
      ¬ (inSet (run demoOps).profileSet ⟨"Alex", "a", "", some 1⟩ = true ∧
        inSet (run demoOps).profileSet ⟨"Diana", "d", "", some 4⟩ = true)) ∧
    ((add_friendship (run demoOps) ⟨"Alex", "a", "", some 1⟩
        ⟨"Diana", "d", "", some 4⟩).2 = .selfFriendship ↔
      (inSet (run demoOps).profileSet ⟨"Alex", "a", "", some 1⟩ = true ∧
        inSet (run demoOps).profileSet ⟨"Diana", "d", "", some 4⟩ = true) ∧
        eqData ⟨"Alex", "a", "", some 1⟩ ⟨"Diana", "d", "", some 4⟩ = true) ∧
    ((add_friendship (run demoOps) ⟨"Alex", "a", "", some 1⟩
        ⟨"Diana", "d", "", some 4⟩).2 = .alreadyFriends ↔
      (inSet (run demoOps).profileSet ⟨"Alex", "a", "", some 1⟩ = true ∧
        inSet (run demoOps).profileSet ⟨"Diana", "d", "", some 4⟩ = true) ∧
        ¬ eqData ⟨"Alex", "a", "", some 1⟩ ⟨"Diana", "d", "", some 4⟩ = true ∧
        4 ∈ friendsOf (run demoOps) 1) ∧
    ((add_friendship (run demoOps) ⟨"Alex", "a", "", some 1⟩
        ⟨"Diana", "d", "", some 4⟩).2 = .ok ↔
      (inSet (run demoOps).profileSet ⟨"Alex", "a", "", some 1⟩ = true ∧
        inSet (run demoOps).profileSet ⟨"Diana", "d", "", some 4⟩ = true) ∧
        ¬ eqData ⟨"Alex", "a", "", some 1⟩ ⟨"Diana", "d", "", some 4⟩ = true ∧
        4 ∉ friendsOf (run demoOps) 1) ∧
    ((add_friendship (run demoOps) ⟨"Alex", "a", "", some 1⟩
        ⟨"Diana", "d", "", some 4⟩).2 = .ok →
      4 ∈ friendsOf (add_friendship (run demoOps) ⟨"Alex", "a", "", some 1⟩
        ⟨"Diana", "d", "", some 4⟩).1 1 ∧
      1 ∈ friendsOf (add_friendship (run demoOps) ⟨"Alex", "a", "", some 1⟩
        ⟨"Diana", "d", "", some 4⟩).1 4) ∧
    ((add_friendship (run demoOps) ⟨"Alex", "a", "", some 1⟩
        ⟨"Diana", "d", "", some 4⟩).2 ≠ .ok →
      (add_friendship (run demoOps) ⟨"Alex", "a", "", some 1⟩
        ⟨"Diana", "d", "", some 4⟩).1 = run demoOps) :=
  C3_amended_theorem (run demoOps) ⟨demoOps, rfl⟩ 1 4
    ⟨"Alex", "a", "", some 1⟩ ⟨"Diana", "d", "", some 4⟩
    (by decide) (by decide)

/-- C4: after removing a live profile X from a reachable state, no surviving
adjacency set contains X, X has no adjacency entry and no profile entry, and
`get_friends` (via its id list) for any former neighbour of X excludes X. -/
theorem C4_theorem (net : Network) (hr : Reachable net) (X : Nat)
    (pX : UserProfile) (hX : net.profiles X = some pX) :
    (∀ j l, (remove_profile net X).1.friendships j = some l → X ∉ l) ∧
    (remove_profile net X).1.friendships X = none ∧
    (remove_profile net X).1.profiles X = none ∧
    (∀ j pj, j ∈ friendsOf net X →
      (remove_profile net X).1.profiles j = some pj →
      X ∉ get_friend_ids (remove_profile net X).1 pj) := by
  have h := inv_reachable hr
  have hinv2 : Inv (remove_profile net X).1 := inv_remove_profile net X h
  have hred : (remove_profile net X).1 =
      { profiles := upd net.profiles X none
        nameIndex := dropFromNameIndex net X pX.name
        profileSet := setDiscard net.profileSet pX
        friendships := severFriendships net X
        nextId := net.nextId } := by
    simp [remove_profile, hX]
  have hC1 : ∀ j l, (remove_profile net X).1.friendships j = some l →
      X ∉ l := by
    intro j l hf hmem
    rw [hred] at hf
    dsimp only at hf
    by_cases hjX : j = X
    · rw [hjX, severFriendships_self] at hf
      exact Option.noConfusion hf
    · rw [severFriendships_other net X hjX] at hf
      revert hf
      split <;> rename_i hnb
      · intro hf
        cases hj : net.friendships j with
        | none => rw [hj] at hf; exact Option.noConfusion hf
        | some lj =>
          rw [hj] at hf
          simp only [Option.map_some'] at hf
          cases hf
          exact (mem_removeNat.mp hmem).2 rfl
      · intro hf
        obtain ⟨lX, hlX, hjin⟩ := h.fsymm j l X hf hmem
        rw [hlX] at hnb
        exact hnb hjin
  refine ⟨hC1, ?_, ?_, ?_⟩
  · rw [hred]
    exact severFriendships_self net X
  · rw [hred]
    exact upd_same _ _ _
  · intro j pj hnb hpj
    have hupj : pj.userId = some j := hinv2.idCoh j pj hpj
    have hred2 : get_friend_ids (remove_profile net X).1 pj =
        (match (remove_profile net X).1.friendships j with
          | none => []
          | some l => sortBy (fun a b => decide (a ≤ b)) l) := by
      unfold get_friend_ids
      rw [hupj]
    rw [hred2]
    cases hfj : (remove_profile net X).1.friendships j with
    | none => exact List.not_mem_nil X
    | some l =>
      intro hmem
      exact hC1 j l hfj ((mem_sortBy _).mp hmem)

/-- Witness for C4: removing profile 2 from the two-profile, one-friendship
state. -/
theorem C4_witness :
    (∀ j l, (remove_profile (run [.addProfile "a" "" "", .addProfile "b" "" "",
        .addFriendship 1 2]) 2).1.friendships j = some l → 2 ∉ l) ∧
    (remove_profile (run [.addProfile "a" "" "", .addProfile "b" "" "",
        .addFriendship 1 2]) 2).1.friendships 2 = none ∧
    (remove_profile (run [.addProfile "a" "" "", .addProfile "b" "" "",
        .addFriendship 1 2]) 2).1.profiles 2 = none ∧
    (∀ j pj, j ∈ friendsOf (run [.addProfile "a" "" "", .addProfile "b" "" "",
        .addFriendship 1 2]) 2 →
      (remove_profile (run [.addProfile "a" "" "", .addProfile "b" "" "",
        .addFriendship 1 2]) 2).1.profiles j = some pj →
      2 ∉ get_friend_ids (remove_profile (run [.addProfile "a" "" "",
        .addProfile "b" "" "", .addFriendship 1 2]) 2).1 pj) :=
  C4_theorem (run [.addProfile "a" "" "", .addProfile "b" "" "",
      .addFriendship 1 2])
    ⟨[.addProfile "a" "" "", .addProfile "b" "" "", .addFriendship 1 2], rfl⟩
    2 ⟨"b", "", "", some 2⟩ (by decide)

/-- C5, counterexample: in the reachable state produced by `collideOps`,
profile 2 is live with data ("x","",""), yet `add_profile "x" "" ""` succeeds
(assigning id 3) instead of failing with the duplicate error — the duplicate
check consults the duplicate-detection set, which no longer represents that
live profile, so "fails iff some live profile has an equal triple" is false. -/
theorem C5_counterexample :
    (run collideOps).profiles 2 = some ⟨"x", "", "", some 2⟩ ∧
    (add_profile (run collideOps) "x" "" "").2 = some 3 := by
  refine ⟨by decide, by decide⟩

/-- C5, amended: `add_profile` fails iff the candidate triple has a
representative in the duplicate-detection set (after an update collision this
can miss a live profile's triple); on failure no id is consumed and the state
is unchanged; on success the new profile carries the current counter value as
its id, that id was never a live id before, the counter increments, and every
live id is below the counter (so ids are never reused). -/
theorem C5_amended_theorem (net : Network) (hr : Reachable net)
    (nm em ph : String) :
    ((add_profile net nm em ph).2 = none ↔
      inSet net.profileSet ⟨nm, em, ph, none⟩ = true) ∧
    ((add_profile net nm em ph).2 = none →
      (add_profile net nm em ph).1 = net) ∧
    ((add_profile net nm em ph).2 ≠ none →
      (add_profile net nm em ph).2 = some net.nextId ∧
      net.profiles net.nextId = none ∧
      (add_profile net nm em ph).1.profiles net.nextId =
        some ⟨nm, em, ph, some net.nextId⟩ ∧
      (add_profile net nm em ph).1.nextId = net.nextId + 1 ∧
      ∀ uid p, net.profiles uid = some p → uid < net.nextId) := by
  have h := inv_reachable hr
  by_cases hdup : inSet net.profileSet ⟨nm, em, ph, none⟩ = true
  · have hres : add_profile net nm em ph = (net, none) := by
      unfold add_profile
      rw [if_pos hdup]
    rw [hres]
    exact ⟨by simp [hdup], fun _ => rfl, fun hne => absurd rfl hne⟩
  · have hres : add_profile net nm em ph =
        ({ profiles := upd net.profiles net.nextId
              (some ⟨nm, em, ph, some net.nextId⟩)
           nameIndex := upd net.nameIndex nm
              (some (insertNat net.nextId ((net.nameIndex nm).getD [])))
           profileSet := ⟨nm, em, ph, some net.nextId⟩ :: net.profileSet
           friendships := upd net.friendships net.nextId (some [])
           nextId := net.nextId + 1 }, some net.nextId) := by
      unfold add_profile
      rw [if_neg hdup]
    rw [hres]
    refine ⟨by simp [hdup], by simp, fun _ => ⟨rfl, ?_, ?_, rfl, h.fresh⟩⟩
    · cases h2 : net.profiles net.nextId with
      | none => rfl
      | some p => exact absurd (h.fresh _ _ h2) (lt_irrefl _)
    · exact upd_same _ _ _

/-- Witness for C5's amended theorem: adding "b" to a one-profile state. -/
theorem C5_witness :
    ((add_profile (run [.addProfile "a" "" ""]) "b" "" "").2 = none ↔
      inSet (run [.addProfile "a" "" ""]).profileSet ⟨"b", "", "", none⟩ = true) ∧
    ((add_profile (run [.addProfile "a" "" ""]) "b" "" "").2 = none →
      (add_profile (run [.addProfile "a" "" ""]) "b" "" "").1 =
        run [.addProfile "a" "" ""]) ∧
    ((add_profile (run [.addProfile "a" "" ""]) "b" "" "").2 ≠ none →
      (add_profile (run [.addProfile "a" "" ""]) "b" "" "").2 =
        some (run [.addProfile "a" "" ""]).nextId ∧
      (run [.addProfile "a" "" ""]).profiles
        (run [.addProfile "a" "" ""]).nextId = none ∧
      (add_profile (run [.addProfile "a" "" ""]) "b" "" "").1.profiles
        (run [.addProfile "a" "" ""]).nextId =
        some ⟨"b", "", "", some (run [.addProfile "a" "" ""]).nextId⟩ ∧
      (add_profile (run [.addProfile "a" "" ""]) "b" "" "").1.nextId =
        (run [.addProfile "a" "" ""]).nextId + 1 ∧
      ∀ uid p, (run [.addProfile "a" "" ""]).profiles uid = some p →
        uid < (run [.addProfile "a" "" ""]).nextId) :=
  C5_amended_theorem (run [.addProfile "a" "" ""])
    ⟨[.addProfile "a" "" ""], rfl⟩ "b" "" ""

/-- C10: in every reachable state the adjacency map and the id→profile map
have the same key set, and every id inside any friend set is itself a live
profile key. -/
theorem C10_theorem (net : Network) (hr : Reachable net) :
    (∀ uid, net.profiles uid = none ↔ net.friendships uid = none) ∧
    (∀ i l j, net.friendships i = some l → j ∈ l →
      ∃ p, net.profiles j = some p) := by
  have h := inv_reachable hr
  refine ⟨h.domEq, ?_⟩
  intro i l j hf hj
  have hne := h.closed i l j hf hj
  cases hq : net.profiles j with
  | none => exact absurd hq hne
  | some p => exact ⟨p, rfl⟩

/-- Witness for C10 at the `demoOps` state. -/
theorem C10_witness :
    (∀ uid, (run demoOps).profiles uid = none ↔
      (run demoOps).friendships uid = none) ∧
    (∀ i l j, (run demoOps).friendships i = some l → j ∈ l →
      ∃ p, (run demoOps).profiles j = some p) :=
  C10_theorem (run demoOps) ⟨demoOps, rfl⟩

/-- C6: for a live profile with direct-friend set D in a reachable state, the
scored candidate list holds exactly the ids c ≠ uid, c ∉ D reachable in two
hops, each paired with its mutual-friend count; the output is sorted by
descending score with ties by ascending name, holds no candidate twice, and
`suggest_friends` returns exactly the corresponding profiles; for a profile
whose id is unknown (dead or unassigned), `suggest_friends` is empty. -/
theorem C6_theorem (net : Network) (hr : Reachable net) (p : UserProfile)
    (uid : Nat) (D : List Nat) (hu : p.userId = some uid)
    (hD : net.friendships uid = some D) :
    (∀ c s, (c, s) ∈ suggestSorted net uid D ↔
      (c ≠ uid ∧ c ∉ D ∧ (∃ f ∈ D, c ∈ friendsOf net f) ∧
        s = mutualCount net D c)) ∧
    (suggestSorted net uid D).Pairwise
      (fun a b => suggestKeyLe net a b = true) ∧
    ((suggestSorted net uid D).map Prod.fst).Nodup ∧
    suggest_friends net p = (suggestSorted net uid D).map
      (fun e => (net.profiles e.1).getD defaultProfile) ∧
    (∀ q uid2, q.userId = some uid2 → net.profiles uid2 = none →
      suggest_friends net q = []) ∧
    (∀ q : UserProfile, q.userId = none → suggest_friends net q = []) := by
  have h := inv_reachable hr
  refine ⟨mem_suggestSorted net h.fnodup uid D,
    pairwise_suggestSorted net uid D,
    suggestSorted_keys_nodup net uid D, ?_, ?_, ?_⟩
  · have hred : suggest_friends net p =
        (match net.friendships uid with
          | none => ([] : List UserProfile)
          | some D2 => (suggestSorted net uid D2).map
              (fun e => (net.profiles e.1).getD defaultProfile)) := by
      unfold suggest_friends
      rw [hu]
    rw [hred, hD]
  · intro q uid2 hq hnone
    have hfn : net.friendships uid2 = none := (h.domEq uid2).mp hnone
    have hred : suggest_friends net q =
        (match net.friendships uid2 with
          | none => ([] : List UserProfile)
          | some D2 => (suggestSorted net uid2 D2).map
              (fun e => (net.profiles e.1).getD defaultProfile)) := by
      unfold suggest_friends
      rw [hq]
    rw [hred, hfn]
  · intro q hq
    unfold suggest_friends
    rw [hq]

/-- Witness for C6 at the specification's own scenario (`demoOps`): Alex(1)
queries with direct friends D = [3, 2]. -/
theorem C6_witness :
    (∀ c s, (c, s) ∈ suggestSorted (run demoOps) 1 [3, 2] ↔
      (c ≠ 1 ∧ c ∉ [3, 2] ∧ (∃ f ∈ [3, 2], c ∈ friendsOf (run demoOps) f) ∧
        s = mutualCount (run demoOps) [3, 2] c)) ∧
    (suggestSorted (run demoOps) 1 [3, 2]).Pairwise
      (fun a b => suggestKeyLe (run demoOps) a b = true) ∧
    ((suggestSorted (run demoOps) 1 [3, 2]).map Prod.fst).Nodup ∧
    suggest_friends (run demoOps) ⟨"Alex", "a", "", some 1⟩ =
      (suggestSorted (run demoOps) 1 [3, 2]).map
        (fun e => ((run demoOps).profiles e.1).getD defaultProfile) ∧
    (∀ q uid2, q.userId = some uid2 → (run demoOps).profiles uid2 = none →
      suggest_friends (run demoOps) q = []) ∧
    (∀ q : UserProfile, q.userId = none →
      suggest_friends (run demoOps) q = []) :=
  C6_theorem (run demoOps) ⟨demoOps, rfl⟩ ⟨"Alex", "a", "", some 1⟩ 1 [3, 2]
    rfl (by decide)

/-- C7: in a reachable state, every candidate id produced by the suggestion
computation is a live key of the id→profile map, so the profile lookups in
the sorting key and in the returned list always succeed, and every returned
profile is a live stored profile. -/
theorem C7_theorem (net : Network) (hr : Reachable net) (p : UserProfile)
    (uid : Nat) (D : List Nat) (hu : p.userId = some uid)
    (hD : net.friendships uid = some D) :
    (∀ e ∈ suggestSorted net uid D, ∃ q, net.profiles e.1 = some q) ∧
    (∀ q ∈ suggest_friends net p, ∃ j, net.profiles j = some q) := by
  have h := inv_reachable hr
  have hlive : ∀ e ∈ suggestSorted net uid D, ∃ q, net.profiles e.1 = some q := by
    intro e he
    have he2 : (e.1, e.2) ∈ suggestSorted net uid D := by
      rw [Prod.mk.eta]
      exact he
    obtain ⟨_, _, ⟨f, hf, hc⟩, _⟩ :=
      (mem_suggestSorted net h.fnodup uid D e.1 e.2).mp he2
    obtain ⟨lf, hlf, hcm⟩ := mem_friendsOf.mp hc
    have hne := h.closed f lf e.1 hlf hcm
    cases hq : net.profiles e.1 with
    | none => exact absurd hq hne
    | some q => exact ⟨q, rfl⟩
  refine ⟨hlive, ?_⟩
  intro q hq
  have hred : suggest_friends net p =
      (match net.friendships uid with
        | none => ([] : List UserProfile)
        | some D2 => (suggestSorted net uid D2).map
            (fun e => (net.profiles e.1).getD defaultProfile)) := by
    unfold suggest_friends
    rw [hu]
  rw [hred, hD] at hq
  obtain ⟨e, he, heq⟩ := List.mem_map.mp hq
  obtain ⟨q0, hq0⟩ := hlive e he
  refine ⟨e.1, ?_⟩
  rw [hq0]
  rw [hq0] at heq
  simp only [Option.getD_some] at heq
  rw [heq]

/-- Witness for C7 at the `demoOps` state, querying Alex(1). -/
theorem C7_witness :
    (∀ e ∈ suggestSorted (run demoOps) 1 [3, 2], ∃ q,
      (run demoOps).profiles e.1 = some q) ∧
    (∀ q ∈ suggest_friends (run demoOps) ⟨"Alex", "a", "", some 1⟩, ∃ j,
      (run demoOps).profiles j = some q) :=
  C7_theorem (run demoOps) ⟨demoOps, rfl⟩ ⟨"Alex", "a", "", some 1⟩ 1 [3, 2]
    rfl (by decide)

/-- C8: updating a live profile in a reachable state never changes the
adjacency map (all friendships survive), keeps the profile stored under the
same id with its `user_id` field untouched, leaves every other profile entry
alone, and afterwards the id is indexed under the (possibly new) name and
under no other name, with no empty index entry left behind. -/
theorem C8_theorem (net : Network) (hr : Reachable net) (uid : Nat)
    (profile : UserProfile) (nn ne np : Option String)
    (hp : net.profiles uid = some profile) :
    (update_profile net uid nn ne np).1.friendships = net.friendships ∧
    (update_profile net uid nn ne np).1.profiles uid =
      some (applyUpdate profile nn ne np) ∧
    (applyUpdate profile nn ne np).userId = profile.userId ∧
    (∀ j, j ≠ uid →
      (update_profile net uid nn ne np).1.profiles j = net.profiles j) ∧
    (∀ n l, (update_profile net uid nn ne np).1.nameIndex n = some l →
      uid ∈ l → n = (applyUpdate profile nn ne np).name) ∧
    (∃ l, (update_profile net uid nn ne np).1.nameIndex
      (applyUpdate profile nn ne np).name = some l ∧ uid ∈ l) ∧
    (∀ n l, (update_profile net uid nn ne np).1.nameIndex n = some l →
      l ≠ []) := by
  have h := inv_reachable hr
  have hinv2 : Inv (update_profile net uid nn ne np).1 :=
    inv_update_profile net uid nn ne np h
  have hredP : (update_profile net uid nn ne np).1.profiles =
      upd net.profiles uid (some (applyUpdate profile nn ne np)) := by
    unfold update_profile
    rw [hp]
  have hredF : (update_profile net uid nn ne np).1.friendships =
      net.friendships := by
    unfold update_profile
    rw [hp]
  have hp2 : (update_profile net uid nn ne np).1.profiles uid =
      some (applyUpdate profile nn ne np) := by
    rw [hredP]
    exact upd_same _ _ _
  refine ⟨hredF, hp2, rfl, ?_, ?_, ?_, ?_⟩
  · intro j hj
    rw [hredP]
    exact upd_ne _ _ _ hj
  · intro n l hn hm
    obtain ⟨q, hq, hqn⟩ := (hinv2.idxSound n l hn).2.2 uid hm
    rw [hp2] at hq
    cases hq
    exact hqn.symm
  · exact hinv2.idxComplete uid _ hp2
  · intro n l hn
    exact (hinv2.idxSound n l hn).1

/-- Witness for C8: renaming profile 1 from "a" to "c" in a two-profile state
with one friendship. -/
theorem C8_witness :
    (update_profile (run [.addProfile "a" "" "", .addProfile "b" "" "",
        .addFriendship 1 2]) 1 (some "c") none none).1.friendships =
      (run [.addProfile "a" "" "", .addProfile "b" "" "",
        .addFriendship 1 2]).friendships ∧
    (update_profile (run [.addProfile "a" "" "", .addProfile "b" "" "",
        .addFriendship 1 2]) 1 (some "c") none none).1.profiles 1 =
      some (applyUpdate ⟨"a", "", "", some 1⟩ (some "c") none none) ∧
    (applyUpdate ⟨"a", "", "", some 1⟩ (some "c") none none).userId =
      (⟨"a", "", "", some 1⟩ : UserProfile).userId ∧
    (∀ j, j ≠ 1 →
      (update_profile (run [.addProfile "a" "" "", .addProfile "b" "" "",
        .addFriendship 1 2]) 1 (some "c") none none).1.profiles j =
      (run [.addProfile "a" "" "", .addProfile "b" "" "",
        .addFriendship 1 2]).profiles j) ∧
    (∀ n l, (update_profile (run [.addProfile "a" "" "", .addProfile "b" "" "",
        .addFriendship 1 2]) 1 (some "c") none none).1.nameIndex n = some l →
      1 ∈ l → n = (applyUpdate ⟨"a", "", "", some 1⟩ (some "c") none none).name) ∧
    (∃ l, (update_profile (run [.addProfile "a" "" "", .addProfile "b" "" "",
        .addFriendship 1 2]) 1 (some "c") none none).1.nameIndex
      (applyUpdate ⟨"a", "", "", some 1⟩ (some "c") none none).name =
        some l ∧ 1 ∈ l) ∧
    (∀ n l, (update_profile (run [.addProfile "a" "" "", .addProfile "b" "" "",
        .addFriendship 1 2]) 1 (some "c") none none).1.nameIndex n = some l →
      l ≠ []) :=
  C8_theorem (run [.addProfile "a" "" "", .addProfile "b" "" "",
      .addFriendship 1 2])
    ⟨[.addProfile "a" "" "", .addProfile "b" "" "", .addFriendship 1 2], rfl⟩
    1 ⟨"a", "", "", some 1⟩ (some "c") none none (by decide)

/-- C9: `update_profile` fails exactly on an unknown id, with the state
unchanged, and otherwise stores `UserProfile.update` of the old profile; that
update overwrites each of name/email/phone exactly when the corresponding
argument is present (`some`) and non-empty, while an absent argument or the
empty string leaves the field unchanged. -/
theorem C9_theorem (net : Network) (uid : Nat) (nn ne np : Option String) :
    (net.profiles uid = none →
      update_profile net uid nn ne np = (net, .profileNotFound)) ∧
    ((update_profile net uid nn ne np).2 = .profileNotFound →
      (update_profile net uid nn ne np).1 = net) ∧
    (∀ profile, net.profiles uid = some profile →
      (update_profile net uid nn ne np).2 = .ok ∧
      (update_profile net uid nn ne np).1.profiles uid =
        some (applyUpdate profile nn ne np)) ∧
    (∀ p : UserProfile,
      (∀ s, nn = some s → s ≠ "" → (applyUpdate p nn ne np).name = s) ∧
      (nn = none ∨ nn = some "" → (applyUpdate p nn ne np).name = p.name) ∧
      (∀ s, ne = some s → s ≠ "" → (applyUpdate p nn ne np).email = s) ∧
      (ne = none ∨ ne = some "" → (applyUpdate p nn ne np).email = p.email) ∧
      (∀ s, np = some s → s ≠ "" → (applyUpdate p nn ne np).phone = s) ∧
      (np = none ∨ np = some "" → (applyUpdate p nn ne np).phone = p.phone)) := by
  refine ⟨?_, ?_, ?_, ?_⟩
  · intro hnone
    unfold update_profile
    rw [hnone]
  · intro h2
    cases hp : net.profiles uid with
    | none =>
      unfold update_profile
      rw [hp]
    | some profile =>
      unfold update_profile at h2
      rw [hp] at h2
      exact absurd h2 (by simp)
  · intro profile hp
    constructor
    · unfold update_profile
      rw [hp]
    · have hredP : (update_profile net uid nn ne np).1.profiles =
          upd net.profiles uid (some (applyUpdate profile nn ne np)) := by
        unfold update_profile
        rw [hp]
      rw [hredP]
      exact upd_same _ _ _
  · intro p
    refine ⟨?_, ?_, ?_, ?_, ?_, ?_⟩
    · rintro s rfl hs
      simp [applyUpdate, hs]
    · rintro (rfl | rfl)
      · rfl
      · simp [applyUpdate]
    · rintro s rfl hs
      simp [applyUpdate, hs]
    · rintro (rfl | rfl)
      · rfl
      · simp [applyUpdate]
    · rintro s rfl hs
      simp [applyUpdate, hs]
    · rintro (rfl | rfl)
      · rfl
      · simp [applyUpdate]

/-- Witness for C9 at a concrete one-profile state: rename with a non-empty
name, an empty email (kept), and an absent phone (kept). -/
theorem C9_witness :
    ((run [.addProfile "a" "x" "y"]).profiles 1 = none →
      update_profile (run [.addProfile "a" "x" "y"]) 1 (some "b") (some "") none =
        (run [.addProfile "a" "x" "y"], .profileNotFound)) ∧
    ((update_profile (run [.addProfile "a" "x" "y"]) 1 (some "b") (some "")
        none).2 = .profileNotFound →
      (update_profile (run [.addProfile "a" "x" "y"]) 1 (some "b") (some "")
        none).1 = run [.addProfile "a" "x" "y"]) ∧
    (∀ profile, (run [.addProfile "a" "x" "y"]).profiles 1 = some profile →
      (update_profile (run [.addProfile "a" "x" "y"]) 1 (some "b") (some "")
        none).2 = .ok ∧
      (update_profile (run [.addProfile "a" "x" "y"]) 1 (some "b") (some "")
        none).1.profiles 1 =
        some (applyUpdate profile (some "b") (some "") none)) ∧
    (∀ p : UserProfile,
      (∀ s, (some "b" : Option String) = some s → s ≠ "" →
        (applyUpdate p (some "b") (some "") none).name = s) ∧
      ((some "b" : Option String) = none ∨ (some "b" : Option String) = some "" →
        (applyUpdate p (some "b") (some "") none).name = p.name) ∧
      (∀ s, (some "" : Option String) = some s → s ≠ "" →
        (applyUpdate p (some "b") (some "") none).email = s) ∧
      ((some "" : Option String) = none ∨ (some "" : Option String) = some "" →
        (applyUpdate p (some "b") (some "") none).email = p.email) ∧
      (∀ s, (none : Option String) = some s → s ≠ "" →
        (applyUpdate p (some "b") (some "") none).phone = s) ∧
      ((none : Option String) = none ∨ (none : Option String) = some "" →
        (applyUpdate p (some "b") (some "") none).phone = p.phone)) :=
  C9_theorem (run [.addProfile "a" "x" "y"]) 1 (some "b") (some "") none

end SocialNetwork
